import Mathlib

/-!
Verification development for the `remote_file_system` client
(`src/client/src/remote_fs.rs`, `src/client/src/remote_client.rs`,
`src/client/src/types.rs`), a FUSE filesystem translated to HTTP calls.

The Rust code is shallowly embedded:
* remote paths (Rust `String`, UTF-8 with `/` separators) become `List Char`;
* `HashMap` becomes an association list with replace-on-insert semantics;
* byte buffers become `List Nat`;
* `std::time::Instant` becomes a `Nat` clock passed to each operation;
* the network and the scratch-file OS calls are fallible, so every
  dispatcher callback takes the outcome of each call it may issue
  (an `Except`/`Bool` oracle) as an explicit argument;
* each operation also returns the list of HTTP requests it issued.
-/

/-! ## Paths (`src/client/src/types.rs`) -/

/-- A server-relative remote path, modelling a Rust `String`
(UTF-8, `/`-separated, no leading slash; `[]` is the mount root). -/
abbrev RPath := List Char

/-- `types.rs::join_path`: `if parent.is_empty() { name } else { parent + "/" + name }`. -/
def join_path (parent name : RPath) : RPath :=
  if parent = [] then name else parent ++ '/' :: name

/-- `types.rs::parent_of`: the substring before the last `/`, or `""`.
`path.rfind('/')` is modelled by dropping the reversed path up to the
first `/` of the reversal. -/
def parent_of (path : RPath) : RPath :=
  match path.reverse.dropWhile (fun c => c ≠ '/') with
  | [] => []
  | _ :: rest => rest.reverse

/-- `path.split('/').last().unwrap_or("")`: the component after the last `/`
(used by `getattr`). -/
def baseName (path : RPath) : RPath :=
  (path.reverse.takeWhile (fun c => c ≠ '/')).reverse

/-! ## Association lists (modelling Rust `HashMap`)

Insertion replaces any existing binding (Rust `HashMap::insert`);
removal drops the binding (`HashMap::remove`). The model keeps entries in a
deterministic list order; `HashMap` iteration order is unspecified in Rust,
which only matters for eviction tie-breaking. -/

def lookupA {κ ν : Type} [DecidableEq κ] : List (κ × ν) → κ → Option ν
  | [], _ => none
  | kv :: rest, k => if kv.1 = k then some kv.2 else lookupA rest k

def removeA {κ ν : Type} [DecidableEq κ] (m : List (κ × ν)) (k : κ) : List (κ × ν) :=
  m.filter (fun kv => decide (kv.1 ≠ k))

def insertA {κ ν : Type} [DecidableEq κ] (m : List (κ × ν)) (k : κ) (v : ν) : List (κ × ν) :=
  (k, v) :: removeA m k

def keysA {κ ν : Type} (m : List (κ × ν)) : List κ :=
  m.map Prod.fst

/-! ## Data model (`types.rs`, structs in `remote_fs.rs`) -/

/-- `types.rs::RemoteEntry`: one row of the server's `GET /list/{path}` reply. -/
structure RemoteEntry where
  name : RPath
  is_dir : Bool
  size : Nat
deriving DecidableEq

/-- `types.rs::CacheConfig`. Durations are modelled in the same abstract
clock units as timestamps. -/
structure CacheConfig where
  dir_ttl : Nat
  file_ttl : Nat
  max_file_cache_bytes : Nat
deriving DecidableEq

/-- `remote_fs.rs::CachedDir`. `cached_at : Instant` is the clock value at
insertion. -/
structure CachedDir where
  entries : List RemoteEntry
  cached_at : Nat
deriving DecidableEq

/-- `remote_fs.rs::CachedFile`. -/
structure CachedFile where
  data : List Nat
  cached_at : Nat
deriving DecidableEq

/-- An anonymous scratch file (`tempfile::tempfile()`): its byte contents
and its current cursor position. -/
structure ScratchFile where
  data : List Nat
  pos : Nat
deriving DecidableEq

/-- `file.seek(SeekFrom::Start(o))`. -/
def ScratchFile.seekStart (f : ScratchFile) (o : Nat) : ScratchFile :=
  { f with pos := o }

/-- `file.write_all(bytes)` at the current cursor: overwrite in place,
zero-fill any gap past end-of-file, advance the cursor. -/
def ScratchFile.writeAll (f : ScratchFile) (bytes : List Nat) : ScratchFile :=
  let padded := f.data ++ List.replicate (f.pos - f.data.length) 0
  { data := padded.take f.pos ++ bytes ++ padded.drop (f.pos + bytes.length),
    pos := f.pos + bytes.length }

/-- `file.read(&mut buf)` with `buf.len() = size`: returns the bytes read
(up to `size`, empty at or past end-of-file) and advances the cursor. -/
def ScratchFile.readAt (f : ScratchFile) (size : Nat) : List Nat × ScratchFile :=
  let bytes := (f.data.drop f.pos).take size
  (bytes, { f with pos := f.pos + bytes.length })

/-- `file.read_to_end(&mut v)`: all bytes from the cursor to end-of-file. -/
def ScratchFile.readToEnd (f : ScratchFile) : List Nat × ScratchFile :=
  (f.data.drop f.pos, { f with pos := f.data.length })

/-- `remote_fs.rs::WriteBuffer`. -/
structure WriteBuffer where
  file : ScratchFile
  path : RPath
  dirty : Bool
deriving DecidableEq

/-- The `libc` error codes the dispatcher replies with. -/
inductive FuseError where
  | ENOENT
  | EIO
  | EBADF
deriving DecidableEq

/-- A FUSE reply: `reply.ok(...)/reply.data(...)/...` or `reply.error(e)`. -/
inductive Reply (α : Type) where
  | ok (a : α)
  | error (e : FuseError)
deriving DecidableEq

/-- An HTTP request issued against the remote server, recorded in order. -/
inductive HttpReq where
  | list (path : RPath)
  | getFull (path : RPath)
  | getRange (path : RPath) (offset : Nat) (size : Nat)
  | put (path : RPath) (body : List Nat)
  | delete (path : RPath)
  | mkdirReq (path : RPath)
deriving DecidableEq

/-! ## The client state (`remote_fs.rs::RemoteFS`) -/

structure RemoteFS where
  inode_counter : Nat
  inode_to_path : List (Nat × RPath)
  path_to_inode : List (RPath × Nat)
  write_buffers : List (Nat × WriteBuffer)
  fh_counter : Nat
  cache_config : CacheConfig
  dir_cache : List (RPath × CachedDir)
  file_cache : List (RPath × CachedFile)
  file_cache_size : Nat
deriving DecidableEq

/-- `RemoteFS::new`: root inode 1 is pre-bound to the empty path. -/
def RemoteFS.new (cache_config : CacheConfig) : RemoteFS :=
  { inode_counter := 1,
    inode_to_path := [(1, [])],
    path_to_inode := [([], 1)],
    write_buffers := [],
    fh_counter := 0,
    cache_config := cache_config,
    dir_cache := [],
    file_cache := [],
    file_cache_size := 0 }

/-- `RemoteFS::inode_path`. -/
def RemoteFS.inode_path (fs : RemoteFS) (ino : Nat) : Option RPath :=
  lookupA fs.inode_to_path ino

/-- `RemoteFS::child_path`: `(parent_path, parent_path/name)`. -/
def RemoteFS.child_path (fs : RemoteFS) (parent : Nat) (name : RPath) : RPath × RPath :=
  let parent_path := (fs.inode_path parent).getD []
  (parent_path, join_path parent_path name)

/-- `RemoteFS::alloc_inode`: idempotent; otherwise bind `counter+1` in both
directions. -/
def RemoteFS.alloc_inode (fs : RemoteFS) (path : RPath) : Nat × RemoteFS :=
  match lookupA fs.path_to_inode path with
  | some ino => (ino, fs)
  | none =>
    let ino := fs.inode_counter + 1
    (ino, { fs with
              inode_counter := ino,
              path_to_inode := insertA fs.path_to_inode path ino,
              inode_to_path := insertA fs.inode_to_path ino path })

/-- `RemoteFS::remove_inode`: drop both halves of the binding, if present. -/
def RemoteFS.remove_inode (fs : RemoteFS) (path : RPath) : RemoteFS :=
  match lookupA fs.path_to_inode path with
  | some ino =>
    { fs with
        path_to_inode := removeA fs.path_to_inode path,
        inode_to_path := removeA fs.inode_to_path ino }
  | none => fs

/-- `RemoteFS::list_dir`: serve a fresh directory-cache entry, else issue
`GET /list/{path}` (outcome `net`) and cache the listing. -/
def RemoteFS.list_dir (fs : RemoteFS) (path : RPath) (now : Nat)
    (net : Except Unit (List RemoteEntry)) :
    Except Unit (List RemoteEntry) × RemoteFS × List HttpReq :=
  let miss :=
    match net with
    | .error e => (.error e, fs, [HttpReq.list path])
    | .ok entries =>
      (.ok entries,
       { fs with dir_cache := insertA fs.dir_cache path { entries := entries, cached_at := now } },
       [HttpReq.list path])
  match lookupA fs.dir_cache path with
  | some cached =>
    if now - cached.cached_at < fs.cache_config.dir_ttl then (.ok cached.entries, fs, [])
    else miss
  | none => miss

/-- First-minimal entry by `cached_at` (Rust
`iter().min_by_key(|(_, v)| v.cached_at)`; `HashMap` iteration order is
unspecified, the model uses list order). -/
def oldestEntry : List (RPath × CachedFile) → Option (RPath × CachedFile)
  | [] => none
  | kv :: rest =>
    match oldestEntry rest with
    | none => some kv
    | some kv' => if kv'.2.cached_at < kv.2.cached_at then some kv' else some kv

/-- The `while self.file_cache_size + data.len() > max` eviction loop of
`fetch_file`, on the `(file_cache, file_cache_size)` pair. `fuel` bounds the
iteration count; each pass removes the oldest entry, so any
`fuel > file_cache.length` is enough. -/
def evictGo (max newLen : Nat) :
    Nat → List (RPath × CachedFile) → Nat → List (RPath × CachedFile) × Nat
  | 0, m, s => (m, s)
  | fuel + 1, m, s =>
    if s + newLen > max then
      match oldestEntry m with
      | none => (m, s)
      | some kv => evictGo max newLen fuel (removeA m kv.1) (s - kv.2.data.length)
    else (m, s)

/-- The cache-miss tail of `RemoteFS::fetch_file`: issue
`GET /files/{path}` (outcome `net`), evict oldest entries until the new body
fits, then insert it unconditionally. -/
def RemoteFS.fetch_file_miss (fs : RemoteFS) (path : RPath) (now : Nat)
    (net : Except Unit (List Nat)) :
    Except Unit (List Nat) × RemoteFS × List HttpReq :=
  match net with
  | .error e => (.error e, fs, [HttpReq.getFull path])
  | .ok data =>
    let p := evictGo fs.cache_config.max_file_cache_bytes data.length
               (fs.file_cache.length + 1) fs.file_cache fs.file_cache_size
    (.ok data,
     { fs with
         file_cache := insertA p.1 path { data := data, cached_at := now },
         file_cache_size := p.2 + data.length },
     [HttpReq.getFull path])

/-- `RemoteFS::fetch_file`: serve a fresh body-cache entry, else fetch,
evict and insert. -/
def RemoteFS.fetch_file (fs : RemoteFS) (path : RPath) (now : Nat)
    (net : Except Unit (List Nat)) :
    Except Unit (List Nat) × RemoteFS × List HttpReq :=
  match lookupA fs.file_cache path with
  | some cached =>
    if now - cached.cached_at < fs.cache_config.file_ttl then (.ok cached.data, fs, [])
    else fs.fetch_file_miss path now net
  | none => fs.fetch_file_miss path now net

/-- `RemoteFS::invalidate`: drop the parent's listing, the path's listing,
and the path's body entry (adjusting `file_cache_size`). -/
def RemoteFS.invalidate (fs : RemoteFS) (path : RPath) : RemoteFS :=
  let dc := removeA (removeA fs.dir_cache (parent_of path)) path
  match lookupA fs.file_cache path with
  | some evicted =>
    { fs with
        dir_cache := dc,
        file_cache := removeA fs.file_cache path,
        file_cache_size := fs.file_cache_size - evicted.data.length }
  | none => { fs with dir_cache := dc }

/-- The `Range` header bounds of `RemoteFS::fetch_range`:
`end = offset + size - 1` in `u64`. The checked (debug-build) semantics of
the subtraction are modelled: `none` is the underflow panic. -/
def fetch_range_header (offset size : Nat) : Option (Nat × Nat) :=
  if offset + size ≥ 1 then some (offset, offset + size - 1) else none

/-! ## The remote server

The server itself is not part of `src/` (the client consumes its REST
surface, §6 of the spec), so it is modelled from the spec. -/

/-- Modelled from the spec: the remote server's state — files as full
path → bytes, plus the set of directory paths. The server code is not in
`src/`; only the REST contract of spec §6 is modelled. -/
structure Server where
  files : List (RPath × List Nat)
  dirs : List RPath
deriving DecidableEq

/-- Modelled from the spec: `GET /list/{parent}` returns
`[{"name", "is_dir", "size"}, …]` — one row per file or directory whose
parent is `parent`. -/
def Server.listDir (s : Server) (parent : RPath) : List RemoteEntry :=
  (s.files.filter (fun pb => decide (parent_of pb.1 = parent))).map
    (fun pb => { name := baseName pb.1, is_dir := false, size := pb.2.length })
  ++ (s.dirs.filter (fun d => decide (parent_of d = parent))).map
      (fun d => { name := baseName d, is_dir := true, size := 0 })

/-- Modelled from the spec: `GET /files/{path}` returns the raw bytes of the
file, a 4xx (transport failure) if it is absent. -/
def Server.getFull (s : Server) (path : RPath) : Except Unit (List Nat) :=
  match lookupA s.files path with
  | some bytes => .ok bytes
  | none => .error ()

/-- Modelled from the spec: `GET /files/{path}` with
`Range: bytes=offset-(offset+size-1)` returns the partial body — the bytes
of the window that exist, empty past end-of-file. -/
def Server.getRange (s : Server) (path : RPath) (offset size : Nat) :
    Except Unit (List Nat) :=
  match lookupA s.files path with
  | some bytes => .ok ((bytes.drop offset).take size)
  | none => .error ()

/-- Modelled from the spec: `PUT /files/{path}` creates the file if absent,
overwrites otherwise. -/
def Server.putFile (s : Server) (path : RPath) (body : List Nat) : Server :=
  { s with files := insertA s.files path body }

/-- Modelled from the spec: `DELETE /files/{path}` removes a file or
directory. -/
def Server.deleteAt (s : Server) (path : RPath) : Server :=
  { files := removeA s.files path,
    dirs := s.dirs.filter (fun d => decide (d ≠ path)) }

/-! ## Dispatcher callbacks (`impl Filesystem for RemoteFS`)

Each callback takes the outcome of every OS/network call it may issue as an
explicit argument (`net` for HTTP bodies, `…Ok : Bool` for scratch-file
seeks/reads/writes and for 2xx-vs-failure of body-less HTTP calls) and
returns `(reply, state, issued HTTP requests)`. Attribute replies are
reduced to the `(ino, size, is_dir)` triple the code computes; the constant
fields of `make_attr` carry no state. -/

/-- An attribute reply: the `(ino, size, kind)` content of `make_attr`. -/
structure AttrOut where
  ino : Nat
  size : Nat
  is_dir : Bool
deriving DecidableEq

/-- `RemoteFS::lookup`: list the parent, find the entry by name, allocate
the child inode. -/
def RemoteFS.lookup (fs : RemoteFS) (parent : Nat) (name : RPath) (now : Nat)
    (net : Except Unit (List RemoteEntry)) :
    Reply AttrOut × RemoteFS × List HttpReq :=
  let pf := fs.child_path parent name
  match fs.list_dir pf.1 now net with
  | (.ok entries, fs1, tr) =>
    match entries.find? (fun e => decide (e.name = name)) with
    | some e =>
      let af := fs1.alloc_inode pf.2
      (.ok { ino := af.1, size := e.size, is_dir := e.is_dir }, af.2, tr)
    | none => (.error .ENOENT, fs1, tr)
  | (.error _, fs1, tr) => (.error .ENOENT, fs1, tr)

/-- `RemoteFS::getattr`: root is a directory of size 0; otherwise list the
parent and find the entry for the path's basename. -/
def RemoteFS.getattr (fs : RemoteFS) (ino : Nat) (now : Nat)
    (net : Except Unit (List RemoteEntry)) :
    Reply AttrOut × RemoteFS × List HttpReq :=
  if ino = 1 then (.ok { ino := 1, size := 0, is_dir := true }, fs, [])
  else
    match fs.inode_path ino with
    | some path =>
      match fs.list_dir (parent_of path) now net with
      | (.ok entries, fs1, tr) =>
        match entries.find? (fun e => decide (e.name = baseName path)) with
        | some e => (.ok { ino := ino, size := e.size, is_dir := e.is_dir }, fs1, tr)
        | none => (.error .ENOENT, fs1, tr)
      | (.error _, fs1, tr) => (.error .ENOENT, fs1, tr)
    | none => (.error .ENOENT, fs, [])

/-- `RemoteFS::readdir`: at offset 0, list and allocate an inode per entry
(the model assumes the reply buffer holds the whole listing, as the source
does); at any other offset emit nothing. Always replies ok. -/
def RemoteFS.readdir (fs : RemoteFS) (ino : Nat) (offset : Nat) (now : Nat)
    (net : Except Unit (List RemoteEntry)) :
    Reply Unit × RemoteFS × List HttpReq :=
  let parent_path := (fs.inode_path ino).getD []
  if offset = 0 then
    match fs.list_dir parent_path now net with
    | (.ok entries, fs1, tr) =>
      let fs2 := entries.foldl
        (fun s e => (s.alloc_inode (join_path parent_path e.name)).2) fs1
      (.ok (), fs2, tr)
    | (.error _, fs1, tr) => (.ok (), fs1, tr)
  else (.ok (), fs, [])

def O_ACCMODE : Nat := 3
def O_WRONLY : Nat := 1
def O_RDWR : Nat := 2
def O_TRUNC : Nat := 512

/-- `RemoteFS::open` (named `openFile`: `open` is reserved in Lean): always
allocate a fresh fh and reply `opened(fh, 0)`; register a write buffer when
writable or truncating, pre-filled from `fetch_file` unless truncating
(`tempfile()` is infallible in the model — the source `unwrap`s it, which
aborts rather than replying). A failed prefetch leaves the scratch empty. -/
def RemoteFS.openFile (fs : RemoteFS) (ino : Nat) (flags : Nat) (now : Nat)
    (net : Except Unit (List Nat)) : Nat × RemoteFS × List HttpReq :=
  let fh := fs.fh_counter + 1
  let fs1 := { fs with fh_counter := fh }
  let access := flags &&& O_ACCMODE
  let writable := access = O_WRONLY ∨ access = O_RDWR
  let trunc := flags &&& O_TRUNC ≠ 0
  if writable ∨ trunc then
    match fs1.inode_path ino with
    | some path =>
      if trunc then
        let buf : WriteBuffer := { file := { data := [], pos := 0 }, path := path, dirty := false }
        (fh, { fs1 with write_buffers := insertA fs1.write_buffers fh buf }, [])
      else
        match fs1.fetch_file path now net with
        | (.ok data, fs2, tr) =>
          let buf : WriteBuffer :=
            { file := (ScratchFile.writeAll { data := [], pos := 0 } data).seekStart 0,
              path := path, dirty := false }
          (fh, { fs2 with write_buffers := insertA fs2.write_buffers fh buf }, tr)
        | (.error _, fs2, tr) =>
          let buf : WriteBuffer := { file := { data := [], pos := 0 }, path := path, dirty := false }
          (fh, { fs2 with write_buffers := insertA fs2.write_buffers fh buf }, tr)
    | none => (fh, fs1, [])
  else (fh, fs1, [])

/-- `RemoteFS::read`: (1) a registered write buffer is authoritative —
seek the scratch to `offset` and read `size` bytes; (2) else slice a fresh
body-cache entry; (3) else issue a byte-range request for exactly the
requested window (a range failure is surfaced as `ENOENT`, as in the
source). -/
def RemoteFS.read (fs : RemoteFS) (ino fh offset size : Nat) (now : Nat)
    (seekOk readOk : Bool) (net : Except Unit (List Nat)) :
    Reply (List Nat) × RemoteFS × List HttpReq :=
  match lookupA fs.write_buffers fh with
  | some buf =>
    if seekOk = false then (.error FuseError.EIO, fs, [])
    else
      let f1 := buf.file.seekStart offset
      if readOk = false then
        let buf1 : WriteBuffer := { buf with file := f1 }
        (.error FuseError.EIO, { fs with write_buffers := insertA fs.write_buffers fh buf1 }, [])
      else
        let r := f1.readAt size
        let buf1 : WriteBuffer := { buf with file := r.2 }
        (.ok r.1, { fs with write_buffers := insertA fs.write_buffers fh buf1 }, [])
  | none =>
    match fs.inode_path ino with
    | none => (.error .ENOENT, fs, [])
    | some path =>
      let remoteRead :=
        match net with
        | .ok data => (Reply.ok data, fs, [HttpReq.getRange path offset size])
        | .error _ => (Reply.error .ENOENT, fs, [HttpReq.getRange path offset size])
      match lookupA fs.file_cache path with
      | some cached =>
        if now - cached.cached_at < fs.cache_config.file_ttl then
          let start := offset
          let stop := min (start + size) cached.data.length
          (.ok (if start ≥ cached.data.length then []
                else (cached.data.drop start).take (stop - start)),
           fs, [])
        else remoteRead
      | none => remoteRead

/-- `RemoteFS::create`: `PUT` an empty body; on success invalidate, allocate
an inode and a fresh fh with an empty scratch buffer. -/
def RemoteFS.create (fs : RemoteFS) (parent : Nat) (name : RPath) (putOk : Bool) :
    Reply (AttrOut × Nat) × RemoteFS × List HttpReq :=
  let pf := fs.child_path parent name
  if putOk then
    let fs1 := fs.invalidate pf.2
    let af := fs1.alloc_inode pf.2
    let fh := af.2.fh_counter + 1
    let buf : WriteBuffer := { file := { data := [], pos := 0 }, path := pf.2, dirty := false }
    let fs2 := { af.2 with
                   fh_counter := fh,
                   write_buffers := insertA af.2.write_buffers fh buf }
    (.ok ({ ino := af.1, size := 0, is_dir := false }, fh), fs2, [HttpReq.put pf.2 []])
  else (.error FuseError.EIO, fs, [HttpReq.put pf.2 []])

/-- `RemoteFS::write`: require a matching write buffer (else `EBADF`); seek
to `offset` and `write_all(data)`; on success set `dirty` and reply
`written(data.len())`; scratch-file I/O failures are `EIO`. -/
def RemoteFS.write (fs : RemoteFS) (fh offset : Nat) (data : List Nat)
    (seekOk writeOk : Bool) : Reply Nat × RemoteFS :=
  match lookupA fs.write_buffers fh with
  | none => (.error .EBADF, fs)
  | some buf =>
    if seekOk = false then (.error FuseError.EIO, fs)
    else
      let f1 := buf.file.seekStart offset
      if writeOk = false then (.error FuseError.EIO, fs)
      else
        let buf1 : WriteBuffer := { buf with file := f1.writeAll data, dirty := true }
        (.ok data.length, { fs with write_buffers := insertA fs.write_buffers fh buf1 })

/-- `RemoteFS::flush`: a clean buffer (or no buffer) is a no-op. A dirty
buffer is seeked to 0 (the source discards the seek result) and read back;
a read failure is `EIO` with `dirty` still set. Then `dirty` is cleared,
the bytes are `PUT`, and on success the path is invalidated; a `PUT`
failure is `EIO` — with `dirty` already cleared. -/
def RemoteFS.flush (fs : RemoteFS) (fh : Nat) (readOk putOk : Bool) :
    Reply Unit × RemoteFS × List HttpReq :=
  match lookupA fs.write_buffers fh with
  | none => (.ok (), fs, [])
  | some buf =>
    if buf.dirty = false then (.ok (), fs, [])
    else
      let f1 := buf.file.seekStart 0
      if readOk = false then
        let buf1 : WriteBuffer := { buf with file := f1 }
        (.error FuseError.EIO, { fs with write_buffers := insertA fs.write_buffers fh buf1 }, [])
      else
        let r := f1.readToEnd
        let buf1 : WriteBuffer := { buf with file := r.2, dirty := false }
        let fs2 := { fs with write_buffers := insertA fs.write_buffers fh buf1 }
        if putOk then
          (.ok (), fs2.invalidate buf.path, [HttpReq.put buf.path r.1])
        else
          (.error FuseError.EIO, fs2, [HttpReq.put buf.path r.1])

/-- `RemoteFS::release`: drop the fh from the registry, reply ok. -/
def RemoteFS.release (fs : RemoteFS) (fh : Nat) : Reply Unit × RemoteFS :=
  (.ok (), { fs with write_buffers := removeA fs.write_buffers fh })

/-- `RemoteFS::mkdir`: `POST /mkdir/{path}`; on success invalidate and
allocate an inode. -/
def RemoteFS.mkdir (fs : RemoteFS) (parent : Nat) (name : RPath) (mkOk : Bool) :
    Reply AttrOut × RemoteFS × List HttpReq :=
  let pf := fs.child_path parent name
  if mkOk then
    let fs1 := fs.invalidate pf.2
    let af := fs1.alloc_inode pf.2
    (.ok { ino := af.1, size := 0, is_dir := true }, af.2, [HttpReq.mkdirReq pf.2])
  else (.error FuseError.EIO, fs, [HttpReq.mkdirReq pf.2])

/-- `RemoteFS::unlink`: `DELETE`; on success invalidate and remove the
inode binding. -/
def RemoteFS.unlink (fs : RemoteFS) (parent : Nat) (name : RPath) (delOk : Bool) :
    Reply Unit × RemoteFS × List HttpReq :=
  let pf := fs.child_path parent name
  if delOk then
    (.ok (), ((fs.invalidate pf.2).remove_inode pf.2), [HttpReq.delete pf.2])
  else (.error FuseError.EIO, fs, [HttpReq.delete pf.2])

/-- `RemoteFS::rmdir` delegates to `unlink`. -/
def RemoteFS.rmdir (fs : RemoteFS) (parent : Nat) (name : RPath) (delOk : Bool) :
    Reply Unit × RemoteFS × List HttpReq :=
  fs.unlink parent name delOk

/-- `RemoteFS::rename`: invalidate both paths, fetch the old file in full,
upload to the new path, delete the old path, then rebind the inode
(`path_to_inode.insert(new_path, ino)` replaces any binding already at
`new_path`; the stale reverse entry of such a binding is left in place). -/
def RemoteFS.rename (fs : RemoteFS) (parent : Nat) (name : RPath)
    (newparent : Nat) (newname : RPath) (now : Nat)
    (getRes : Except Unit (List Nat)) (putOk delOk : Bool) :
    Reply Unit × RemoteFS × List HttpReq :=
  let old_path := (fs.child_path parent name).2
  let new_path := (fs.child_path newparent newname).2
  let fs1 := (fs.invalidate old_path).invalidate new_path
  match fs1.fetch_file old_path now getRes with
  | (.error _, fs2, tr) => (.error FuseError.EIO, fs2, tr)
  | (.ok data, fs2, tr) =>
    if putOk = false then (.error FuseError.EIO, fs2, tr ++ [HttpReq.put new_path data])
    else if delOk = false then
      (.error FuseError.EIO, fs2, tr ++ [HttpReq.put new_path data, HttpReq.delete old_path])
    else
      let fs3 :=
        match lookupA fs2.path_to_inode old_path with
        | some ino =>
          { fs2 with
              path_to_inode := insertA (removeA fs2.path_to_inode old_path) new_path ino,
              inode_to_path := insertA fs2.inode_to_path ino new_path }
        | none => fs2
      (.ok (), fs3, tr ++ [HttpReq.put new_path data, HttpReq.delete old_path])

/-- `RemoteFS::setattr`: only `size = Some(0)` (truncate) is honoured —
`PUT` an empty body, invalidate, reply the truncated attributes; everything
else (including a failed truncate upload) falls back to `getattr`. -/
def RemoteFS.setattr (fs : RemoteFS) (ino : Nat) (size : Option Nat) (now : Nat)
    (putOk : Bool) (net : Except Unit (List RemoteEntry)) :
    Reply AttrOut × RemoteFS × List HttpReq :=
  match size, fs.inode_path ino with
  | some 0, some path =>
    if putOk then
      (.ok { ino := ino, size := 0, is_dir := false }, fs.invalidate path,
       [HttpReq.put path []])
    else
      let g := fs.getattr ino now net
      (g.1, g.2.1, HttpReq.put path [] :: g.2.2)
  | _, _ => fs.getattr ino now net

/-! ## One step of the dispatcher

A single kernel callback together with the outcomes of the OS/network
calls it makes. `step` projects the post-state; the reply and trace of an
individual callback are obtained from the callback functions directly. -/

inductive FSOp where
  | lookup (parent : Nat) (name : RPath) (now : Nat) (net : Except Unit (List RemoteEntry))
  | getattr (ino : Nat) (now : Nat) (net : Except Unit (List RemoteEntry))
  | readdir (ino : Nat) (offset : Nat) (now : Nat) (net : Except Unit (List RemoteEntry))
  | openFile (ino : Nat) (flags : Nat) (now : Nat) (net : Except Unit (List Nat))
  | read (ino : Nat) (fh : Nat) (offset : Nat) (size : Nat) (now : Nat)
         (seekOk readOk : Bool) (net : Except Unit (List Nat))
  | create (parent : Nat) (name : RPath) (putOk : Bool)
  | write (fh : Nat) (offset : Nat) (data : List Nat) (seekOk writeOk : Bool)
  | flush (fh : Nat) (readOk putOk : Bool)
  | release (fh : Nat)
  | mkdir (parent : Nat) (name : RPath) (mkOk : Bool)
  | unlink (parent : Nat) (name : RPath) (delOk : Bool)
  | rmdir (parent : Nat) (name : RPath) (delOk : Bool)
  | rename (parent : Nat) (name : RPath) (newparent : Nat) (newname : RPath) (now : Nat)
           (getRes : Except Unit (List Nat)) (putOk delOk : Bool)
  | setattr (ino : Nat) (size : Option Nat) (now : Nat) (putOk : Bool)
            (net : Except Unit (List RemoteEntry))

def step (fs : RemoteFS) : FSOp → RemoteFS
  | .lookup parent name now net => (fs.lookup parent name now net).2.1
  | .getattr ino now net => (fs.getattr ino now net).2.1
  | .readdir ino offset now net => (fs.readdir ino offset now net).2.1
  | .openFile ino flags now net => (fs.openFile ino flags now net).2.1
  | .read ino fh offset size now seekOk readOk net =>
      (fs.read ino fh offset size now seekOk readOk net).2.1
  | .create parent name putOk => (fs.create parent name putOk).2.1
  | .write fh offset data seekOk writeOk => (fs.write fh offset data seekOk writeOk).2
  | .flush fh readOk putOk => (fs.flush fh readOk putOk).2.1
  | .release fh => (fs.release fh).2
  | .mkdir parent name mkOk => (fs.mkdir parent name mkOk).2.1
  | .unlink parent name delOk => (fs.unlink parent name delOk).2.1
  | .rmdir parent name delOk => (fs.rmdir parent name delOk).2.1
  | .rename parent name newparent newname now getRes putOk delOk =>
      (fs.rename parent name newparent newname now getRes putOk delOk).2.1
  | .setattr ino size now putOk net => (fs.setattr ino size now putOk net).2.1

/-- Legality of a callback: the kernel driver never passes an empty file
name to a name-taking mutation (names are single nonempty components). -/
def FSOp.legal : FSOp → Prop
  | .unlink _ n _ => n ≠ []
  | .rmdir _ n _ => n ≠ []
  | .rename _ n _ nn _ _ _ _ => n ≠ [] ∧ nn ≠ []
  | _ => True

instance : DecidablePred FSOp.legal := by
  intro op
  cases op <;> simp only [FSOp.legal] <;> infer_instance


/-! ## Invariants and concrete fixtures -/

/-- Spec invariant (I1), claim C3: every forward binding has its reverse and
vice versa, and the empty path is bound to inode 1. -/
def BiConsistent (fs : RemoteFS) : Prop :=
  (∀ ip ∈ fs.inode_to_path, lookupA fs.path_to_inode ip.2 = some ip.1) ∧
  (∀ pi ∈ fs.path_to_inode, lookupA fs.inode_to_path pi.2 = some pi.1) ∧
  lookupA fs.path_to_inode [] = some 1

/-- The inductive strengthening of (I1): bidirectional consistency plus the
bookkeeping the `HashMap`s maintain implicitly — unique keys and every
allocated inode at most `inode_counter`. -/
def PITInv (fs : RemoteFS) : Prop :=
  BiConsistent fs ∧
  (keysA fs.inode_to_path).Nodup ∧
  (keysA fs.path_to_inode).Nodup ∧
  (∀ ip ∈ fs.inode_to_path, ip.1 ≤ fs.inode_counter)

/-- (I1) survives a rename only when the destination path is unallocated
(or trivially when it coincides with the source, or the source is
unallocated so no rebinding happens); claim C3's counterexample shows a
rename onto an allocated destination breaks it. -/
def renameSafe (fs : RemoteFS) : FSOp → Prop
  | .rename parent name newparent newname _ _ _ _ =>
    lookupA fs.path_to_inode (fs.child_path newparent newname).2 = none ∨
    (fs.child_path newparent newname).2 = (fs.child_path parent name).2 ∨
    lookupA fs.path_to_inode (fs.child_path parent name).2 = none
  | _ => True

/-- Total bytes held by the file-body cache (`sum(len(bytes))` of (I3)). -/
def cacheSumF (m : List (RPath × CachedFile)) : Nat :=
  (m.map (fun kv => kv.2.data.length)).sum

/-- Spec invariant (I3), claim C2, as stated: the byte budget holds. -/
def CacheBudgetOk (fs : RemoteFS) : Prop :=
  cacheSumF fs.file_cache ≤ fs.cache_config.max_file_cache_bytes

/-- The invariant the code actually maintains (claim C2 amended): the
`file_cache_size` counter is an over-approximation of the true byte total
(`fetch_file` replacing a stale entry adds the new body's length without
subtracting the replaced entry's), and the true total respects the budget
unless the cache was reduced to the single most-recent insertion, whose
body alone may exceed the budget. -/
def CacheInv (fs : RemoteFS) : Prop :=
  (keysA fs.file_cache).Nodup ∧
  cacheSumF fs.file_cache ≤ fs.file_cache_size ∧
  (cacheSumF fs.file_cache ≤ fs.cache_config.max_file_cache_bytes ∨
   fs.file_cache.length = 1)

/-- Every registered write-buffer handle was issued by `next_fh`, so is at
most `fh_counter` (used for freshness of newly opened handles, claim C10). -/
def FhInv (fs : RemoteFS) : Prop :=
  ∀ kv ∈ fs.write_buffers, kv.1 ≤ fs.fh_counter

/-- A cache configuration with the default-like TTLs and a 1 KiB budget. -/
def cfg1 : CacheConfig := { dir_ttl := 5, file_ttl := 10, max_file_cache_bytes := 1024 }

/-- A cache configuration with a zero byte budget. -/
def cfg0 : CacheConfig := { dir_ttl := 5, file_ttl := 10, max_file_cache_bytes := 0 }

/-- A fresh mount on which root was opened write-only (`flags = O_WRONLY`)
with the prefetch failing: fh 1 has an empty, clean scratch buffer. -/
def fsOpened : RemoteFS := ((RemoteFS.new cfg1).openFile 1 1 0 (.error ())).2.1

/-- `fsOpened` after `write(fh 1, offset 0, [7, 8])`: the buffer is dirty. -/
def fsDirty : RemoteFS := (fsOpened.write 1 0 [7, 8] true true).2

/-- A fresh mount after `lookup(root, a)` found a file: inode 2 ↔ `a`. -/
def fsRen : RemoteFS :=
  ((RemoteFS.new cfg1).lookup 1 ['a'] 0
    (.ok [{ name := ['a'], is_dir := false, size := 1 }])).2.1

/-- A server holding the single file `a` with body `[9]`. -/
def srvRen : Server := { files := [(['a'], [9])], dirs := [] }

instance decBiConsistent (fs : RemoteFS) : Decidable (BiConsistent fs) := by
  unfold BiConsistent
  infer_instance

instance decPITInv (fs : RemoteFS) : Decidable (PITInv fs) := by
  unfold PITInv
  infer_instance

instance decCacheBudgetOk (fs : RemoteFS) : Decidable (CacheBudgetOk fs) := by
  unfold CacheBudgetOk
  infer_instance

instance decCacheInv (fs : RemoteFS) : Decidable (CacheInv fs) := by
  unfold CacheInv
  infer_instance

instance decFhInv (fs : RemoteFS) : Decidable (FhInv fs) := by
  unfold FhInv
  infer_instance

instance decRenameSafe (fs : RemoteFS) (op : FSOp) : Decidable (renameSafe fs op) := by
  cases op <;> simp only [renameSafe] <;> infer_instance

/-! ## Helper lemmas: paths and association lists -/

theorem dropWhile_append_of_all {p : Char → Bool} :
    ∀ (xs ys : List Char), (∀ x ∈ xs, p x = true) →
      (xs ++ ys).dropWhile p = ys.dropWhile p := by
  intro xs ys h
  induction xs with
  | nil => simp
  | cons a xs ih =>
    simp only [List.cons_append, List.dropWhile_cons]
    rw [h a (by simp)]
    simp only [if_true]
    exact ih (fun x hx => h x (by simp [hx]))

theorem dropWhile_eq_nil_of_all {p : Char → Bool} :
    ∀ (xs : List Char), (∀ x ∈ xs, p x = true) → xs.dropWhile p = [] := by
  intro xs h
  have := dropWhile_append_of_all xs [] h
  simpa using this

theorem parent_of_join (parent name : RPath) (h : '/' ∉ name) :
    parent_of (join_path parent name) = parent := by
  unfold join_path parent_of
  by_cases hp : parent = []
  · subst hp
    simp only [if_true]
    rw [dropWhile_eq_nil_of_all]
    intro x hx
    simp only [decide_eq_true_eq, ne_eq]
    intro hxe
    exact h (by simpa [hxe] using hx)
  · rw [if_neg hp]
    have hrev : (parent ++ '/' :: name).reverse = name.reverse ++ '/' :: parent.reverse := by
      simp
    rw [hrev, dropWhile_append_of_all]
    · simp [List.dropWhile_cons]
    · intro x hx
      simp only [decide_eq_true_eq, ne_eq]
      intro hxe
      exact h (by simpa [hxe] using (List.mem_reverse.mp hx))

theorem head_of_dropWhile_false {p : Char → Bool} :
    ∀ (l : List Char) (c : Char) (rest : List Char),
      l.dropWhile p = c :: rest → p c = false := by
  intro l
  induction l with
  | nil => intro c rest h; simp [List.dropWhile] at h
  | cons a l ih =>
    intro c rest h
    rw [List.dropWhile_cons] at h
    by_cases hpa : p a = true
    · rw [hpa] at h; simp at h; exact ih c rest h
    · rw [Bool.not_eq_true] at hpa
      rw [hpa] at h
      simp at h
      rw [← h.1]
      exact hpa

/-- Reconstruction: for a path that does not start with `/`,
re-joining its parent and base gives the path back. -/
theorem join_parent_base (p : RPath) (hp : p.head? ≠ some '/') :
    join_path (parent_of p) (baseName p) = p := by
  unfold parent_of baseName join_path
  rcases hdrop : p.reverse.dropWhile (fun c => c ≠ '/') with _ | ⟨c, rest⟩
  · simp only [if_true]
    have htd := List.takeWhile_append_dropWhile (p := fun c => c ≠ '/') (l := p.reverse)
    rw [hdrop] at htd
    simp only [List.append_nil] at htd
    rw [htd]
    simp
  · have hc : c = '/' := by
      have := head_of_dropWhile_false p.reverse c rest hdrop
      simpa [decide_eq_false_iff_not] using this
    subst hc
    have htd := List.takeWhile_append_dropWhile (p := fun c => c ≠ '/') (l := p.reverse)
    rw [hdrop] at htd
    have hrest : rest ≠ [] := by
      intro hnil
      subst hnil
      apply hp
      have : p = '/' :: (p.reverse.takeWhile (fun c => c ≠ '/')).reverse := by
        conv_lhs => rw [← p.reverse_reverse, ← htd]
        simp
      rw [this]
      rfl
    have hrr : rest.reverse ≠ [] := by simpa using hrest
    rw [if_neg hrr]
    conv_rhs => rw [← p.reverse_reverse, ← htd]
    simp

/-- A path whose parent is `parent` and whose base is `name` (a nonempty
slash-free component) must be `join_path parent name`, provided it does not
start with `/`. -/
theorem eq_join_of_parent_base (p parent name : RPath) (hp : p.head? ≠ some '/')
    (h1 : parent_of p = parent) (h2 : baseName p = name) :
    p = join_path parent name := by
  rw [← h1, ← h2, join_parent_base p hp]

theorem lookupA_remove_self {κ ν : Type} [DecidableEq κ] (m : List (κ × ν)) (k : κ) :
    lookupA (removeA m k) k = none := by
  induction m with
  | nil => rfl
  | cons kv rest ih =>
    by_cases h : kv.1 = k
    · simpa [removeA, List.filter, h] using ih
    · simpa [removeA, List.filter, h, lookupA] using ih

theorem removeA_cons_self {κ ν : Type} [DecidableEq κ] (kv : κ × ν) (rest : List (κ × ν))
    (k : κ) (hk : kv.1 = k) : removeA (kv :: rest) k = removeA rest k := by
  simp [removeA, List.filter_cons, hk]

theorem removeA_cons_ne {κ ν : Type} [DecidableEq κ] (kv : κ × ν) (rest : List (κ × ν))
    (k : κ) (hk : kv.1 ≠ k) : removeA (kv :: rest) k = kv :: removeA rest k := by
  simp [removeA, List.filter_cons, hk]

theorem lookupA_remove_ne {κ ν : Type} [DecidableEq κ] (m : List (κ × ν)) (k k' : κ)
    (h : k' ≠ k) : lookupA (removeA m k) k' = lookupA m k' := by
  induction m with
  | nil => rfl
  | cons kv rest ih =>
    by_cases hk : kv.1 = k
    · rw [removeA_cons_self kv rest k hk, ih]
      have hne : kv.1 ≠ k' := by rw [hk]; exact fun he => h he.symm
      simp [lookupA, hne]
    · rw [removeA_cons_ne kv rest k hk]
      by_cases hk' : kv.1 = k'
      · simp [lookupA, hk']
      · simp only [lookupA, hk', if_false]
        exact ih

theorem lookupA_insert_self {κ ν : Type} [DecidableEq κ] (m : List (κ × ν)) (k : κ) (v : ν) :
    lookupA (insertA m k v) k = some v := by
  simp [insertA, lookupA]

theorem lookupA_insert_ne {κ ν : Type} [DecidableEq κ] (m : List (κ × ν)) (k k' : κ) (v : ν)
    (h : k' ≠ k) : lookupA (insertA m k v) k' = lookupA m k' := by
  have : k ≠ k' := fun he => h he.symm
  simp [insertA, lookupA, this, lookupA_remove_ne m k k' h]

theorem mem_of_mem_removeA {κ ν : Type} [DecidableEq κ] {m : List (κ × ν)} {k : κ}
    {kv : κ × ν} (h : kv ∈ removeA m k) : kv ∈ m ∧ kv.1 ≠ k := by
  have := List.mem_filter.mp h
  refine ⟨this.1, ?_⟩
  simpa using this.2

theorem mem_removeA_of_mem {κ ν : Type} [DecidableEq κ] {m : List (κ × ν)} {k : κ}
    {kv : κ × ν} (h1 : kv ∈ m) (h2 : kv.1 ≠ k) : kv ∈ removeA m k := by
  exact List.mem_filter.mpr ⟨h1, by simpa using h2⟩

theorem mem_of_lookupA_eq_some {κ ν : Type} [DecidableEq κ] {m : List (κ × ν)} {k : κ} {v : ν}
    (h : lookupA m k = some v) : (k, v) ∈ m := by
  induction m with
  | nil => simp [lookupA] at h
  | cons kv rest ih =>
    by_cases hk : kv.1 = k
    · simp only [lookupA, hk, if_true, Option.some.injEq] at h
      have hkv : kv = (k, v) := by
        cases kv
        simp_all
      rw [← hkv]
      exact List.mem_cons_self _ _
    · simp only [lookupA, hk, if_false] at h
      exact List.mem_cons_of_mem _ (ih h)

theorem lookupA_eq_some_of_mem {κ ν : Type} [DecidableEq κ] {m : List (κ × ν)} {k : κ} {v : ν}
    (hnd : (keysA m).Nodup) (h : (k, v) ∈ m) : lookupA m k = some v := by
  induction m with
  | nil => simp at h
  | cons kv rest ih =>
    simp only [keysA, List.map_cons, List.nodup_cons] at hnd
    rcases List.mem_cons.mp h with he | hm
    · rw [← he]
      simp [lookupA]
    · have hk : kv.1 ≠ k := by
        intro hke
        exact hnd.1 (by simpa [keysA, hke] using List.mem_map_of_mem Prod.fst hm)
      simp only [lookupA, hk, if_false]
      exact ih hnd.2 hm

theorem keysA_removeA_sublist {κ ν : Type} [DecidableEq κ] (m : List (κ × ν)) (k : κ) :
    (keysA (removeA m k)).Sublist (keysA m) := by
  exact List.Sublist.map Prod.fst (List.filter_sublist m)

theorem nodup_keysA_removeA {κ ν : Type} [DecidableEq κ] {m : List (κ × ν)} (k : κ)
    (h : (keysA m).Nodup) : (keysA (removeA m k)).Nodup :=
  (keysA_removeA_sublist m k).nodup h

theorem nodup_keysA_insertA {κ ν : Type} [DecidableEq κ] {m : List (κ × ν)} (k : κ) (v : ν)
    (h : (keysA m).Nodup) : (keysA (insertA m k v)).Nodup := by
  simp only [insertA, keysA, List.map_cons, List.nodup_cons]
  constructor
  · intro hmem
    rcases List.mem_map.mp hmem with ⟨kv, hkv, hfst⟩
    exact (mem_of_mem_removeA hkv).2 hfst
  · exact nodup_keysA_removeA k h

/-! ## Projection lemmas: which fields each primitive leaves unchanged -/

theorem invalidate_write_buffers (fs : RemoteFS) (p : RPath) :
    (fs.invalidate p).write_buffers = fs.write_buffers := by
  unfold RemoteFS.invalidate
  split <;> rfl

theorem invalidate_pit (fs : RemoteFS) (p : RPath) :
    (fs.invalidate p).inode_to_path = fs.inode_to_path ∧
    (fs.invalidate p).path_to_inode = fs.path_to_inode ∧
    (fs.invalidate p).inode_counter = fs.inode_counter := by
  unfold RemoteFS.invalidate
  split <;> exact ⟨rfl, rfl, rfl⟩

theorem invalidate_cache_config (fs : RemoteFS) (p : RPath) :
    (fs.invalidate p).cache_config = fs.cache_config := by
  unfold RemoteFS.invalidate
  split <;> rfl

theorem invalidate_fh_counter (fs : RemoteFS) (p : RPath) :
    (fs.invalidate p).fh_counter = fs.fh_counter := by
  unfold RemoteFS.invalidate
  split <;> rfl

/-! ## Claim C9: `fetch_range` and the `end = offset + size - 1` underflow -/

/-- C9 (counterexample): the claim says `fetch_range` is total and a size-0
read at offset 0 completes without panic; but `offset + size - 1` is
computed in `u64`, and at `offset = 0, size = 0` the subtraction
underflows (a panic in debug builds, a wrap to `2^64 - 1` in release
builds), refuting totality. -/
theorem C9_counterexample : fetch_range_header 0 0 = none := by decide

/-- C9 (amended): for every `offset` and `size` with `offset + size ≥ 1`
the `Range` header bounds are `bytes=offset-(offset+size-1)` and no
underflow occurs; only `offset = 0, size = 0` underflows. -/
theorem C9_fetch_range_header_amended (offset size : Nat) (h : 1 ≤ offset + size) :
    fetch_range_header offset size = some (offset, offset + size - 1) := by
  unfold fetch_range_header
  rw [if_pos h]

/-- Witness for C9 (amended), at `offset = 0, size = 4096`. -/
theorem C9_witness :
    1 ≤ 0 + 4096 ∧ fetch_range_header 0 4096 = some (0, 4095) :=
  ⟨by decide, C9_fetch_range_header_amended 0 4096 (by decide)⟩

/-! ## Claim C7: the `write` callback contract -/

/-- C7: a `write` with no registered buffer for `fh` fails with `EBADF`;
with a buffer, if the scratch seek and write succeed the dirty flag is set
and the reply accepts exactly `data.length` bytes; the only failures of a
buffered write are scratch I/O errors, surfaced as `EIO` — never the size
of the data. -/
theorem C7_write_contract (fs : RemoteFS) (fh offset : Nat) (data : List Nat)
    (seekOk writeOk : Bool) :
    (lookupA fs.write_buffers fh = none →
      fs.write fh offset data seekOk writeOk = (.error .EBADF, fs)) ∧
    (∀ buf, lookupA fs.write_buffers fh = some buf → seekOk = true → writeOk = true →
      (fs.write fh offset data seekOk writeOk).1 = .ok data.length ∧
      (lookupA (fs.write fh offset data seekOk writeOk).2.write_buffers fh).map
        WriteBuffer.dirty = some true) ∧
    (∀ buf, lookupA fs.write_buffers fh = some buf → (seekOk = false ∨ writeOk = false) →
      (fs.write fh offset data seekOk writeOk).1 = .error FuseError.EIO) := by
  refine ⟨?_, ?_, ?_⟩
  · intro h
    unfold RemoteFS.write
    rw [h]
  · intro buf hb hs hw
    subst hs; subst hw
    unfold RemoteFS.write
    rw [hb]
    simp [lookupA_insert_self]
  · intro buf hb hor
    unfold RemoteFS.write
    rw [hb]
    rcases hor with h | h
    · subst h; simp
    · subst h; cases seekOk <;> simp

/-- Witness for C7: on `fsOpened` (fh 1 has a clean empty buffer), a
successful `write(fh 1, 0, [7, 8])` accepts 2 bytes and sets `dirty`, and
`write` on the unregistered fh 2 fails with `EBADF`. -/
theorem C7_witness :
    (lookupA fsOpened.write_buffers 2 = none ∧
      fsOpened.write 2 0 [7, 8] true true = (.error .EBADF, fsOpened)) ∧
    ((fsOpened.write 1 0 [7, 8] true true).1 = .ok 2 ∧
      (lookupA (fsOpened.write 1 0 [7, 8] true true).2.write_buffers 1).map
        WriteBuffer.dirty = some true) := by
  refine ⟨⟨by decide, ?_⟩, ?_⟩
  · exact (C7_write_contract fsOpened 2 0 [7, 8] true true).1 (by decide)
  · exact (C7_write_contract fsOpened 1 0 [7, 8] true true).2.1
      { file := { data := [], pos := 0 }, path := [], dirty := false }
      (by decide) rfl rfl

/-! ## Claim C1: flush error handling and the dirty flag -/

/-- C1 (counterexample): with a dirty buffer (`fsDirty`, fh 1), a flush
whose read-back succeeds but whose HTTP `PUT` fails surfaces `EIO`, yet the
buffer's dirty flag is `false` afterwards — so the claim that `dirty` is
still set after any failed flush step is false — and a subsequent flush is
a no-op (it issues no HTTP request) instead of retrying the upload. -/
theorem C1_counterexample :
    (fsDirty.flush 1 true false).1 = .error FuseError.EIO ∧
    (lookupA (fsDirty.flush 1 true false).2.1.write_buffers 1).map
      WriteBuffer.dirty = some false ∧
    ((fsDirty.flush 1 true false).2.1.flush 1 true true).2.2 = [] := by
  refine ⟨by decide, by decide, by decide⟩

/-- C1 (amended): flushing a dirty buffer surfaces `EIO` with `dirty` still
set when the scratch read-back fails, so that flush is retried; but `dirty`
is cleared as soon as the read-back succeeds — before the upload — so a
failed HTTP `PUT` surfaces `EIO` with `dirty` already cleared and a
subsequent flush does not retry. (The `flush` in `remote_fs.rs` discards
the scratch-seek result entirely.) Dirty is also cleared by a successful
upload, which additionally invalidates the path. -/
theorem C1_flush_dirty_amended (fs : RemoteFS) (fh : Nat) (buf : WriteBuffer)
    (hb : lookupA fs.write_buffers fh = some buf) (hd : buf.dirty = true)
    (readOk putOk : Bool) :
    (readOk = false →
      (fs.flush fh readOk putOk).1 = .error FuseError.EIO ∧
      (lookupA (fs.flush fh readOk putOk).2.1.write_buffers fh).map
        WriteBuffer.dirty = some true) ∧
    (readOk = true →
      (lookupA (fs.flush fh readOk putOk).2.1.write_buffers fh).map
        WriteBuffer.dirty = some false ∧
      (fs.flush fh readOk putOk).1 = (if putOk then .ok () else .error FuseError.EIO)) := by
  constructor
  · intro hr
    subst hr
    simp only [RemoteFS.flush, hb, hd]
    simp [lookupA_insert_self, hd]
  · intro hr
    subst hr
    simp only [RemoteFS.flush, hb, hd]
    cases putOk with
    | true =>
      simp [invalidate_write_buffers, lookupA_insert_self]
    | false =>
      simp [lookupA_insert_self]

/-- Witness for C1 (amended): applied to `fsDirty` at fh 1, read-back
failure keeps `dirty` set; with read-back succeeding and the PUT failing,
`dirty` ends cleared and `EIO` is surfaced. -/
theorem C1_witness :
    (lookupA fsDirty.write_buffers 1 =
      some { file := { data := [7, 8], pos := 2 }, path := [], dirty := true }) ∧
    ((fsDirty.flush 1 false false).1 = .error FuseError.EIO ∧
      (lookupA (fsDirty.flush 1 false false).2.1.write_buffers 1).map
        WriteBuffer.dirty = some true) ∧
    ((lookupA (fsDirty.flush 1 true false).2.1.write_buffers 1).map
        WriteBuffer.dirty = some false ∧
      (fsDirty.flush 1 true false).1 = (if false then .ok () else .error FuseError.EIO)) := by
  refine ⟨by decide, ?_, ?_⟩
  · exact (C1_flush_dirty_amended fsDirty 1
      { file := { data := [7, 8], pos := 2 }, path := [], dirty := true }
      (by decide) rfl false false).1 rfl
  · exact (C1_flush_dirty_amended fsDirty 1
      { file := { data := [7, 8], pos := 2 }, path := [], dirty := true }
      (by decide) rfl true false).2 rfl

theorem fetch_file_preserves (fs : RemoteFS) (p : RPath) (now : Nat)
    (net : Except Unit (List Nat)) :
    (fs.fetch_file p now net).2.1.inode_to_path = fs.inode_to_path ∧
    (fs.fetch_file p now net).2.1.path_to_inode = fs.path_to_inode ∧
    (fs.fetch_file p now net).2.1.inode_counter = fs.inode_counter ∧
    (fs.fetch_file p now net).2.1.write_buffers = fs.write_buffers ∧
    (fs.fetch_file p now net).2.1.fh_counter = fs.fh_counter ∧
    (fs.fetch_file p now net).2.1.cache_config = fs.cache_config ∧
    (fs.fetch_file p now net).2.1.dir_cache = fs.dir_cache := by
  unfold RemoteFS.fetch_file RemoteFS.fetch_file_miss
  split
  · split
    · exact ⟨rfl, rfl, rfl, rfl, rfl, rfl, rfl⟩
    · split <;> exact ⟨rfl, rfl, rfl, rfl, rfl, rfl, rfl⟩
  · split <;> exact ⟨rfl, rfl, rfl, rfl, rfl, rfl, rfl⟩

theorem list_dir_preserves (fs : RemoteFS) (p : RPath) (now : Nat)
    (net : Except Unit (List RemoteEntry)) :
    (fs.list_dir p now net).2.1.inode_to_path = fs.inode_to_path ∧
    (fs.list_dir p now net).2.1.path_to_inode = fs.path_to_inode ∧
    (fs.list_dir p now net).2.1.inode_counter = fs.inode_counter ∧
    (fs.list_dir p now net).2.1.write_buffers = fs.write_buffers ∧
    (fs.list_dir p now net).2.1.fh_counter = fs.fh_counter ∧
    (fs.list_dir p now net).2.1.cache_config = fs.cache_config ∧
    (fs.list_dir p now net).2.1.file_cache = fs.file_cache ∧
    (fs.list_dir p now net).2.1.file_cache_size = fs.file_cache_size := by
  simp only [RemoteFS.list_dir]
  split
  · split
    · exact ⟨rfl, rfl, rfl, rfl, rfl, rfl, rfl, rfl⟩
    · split <;> exact ⟨rfl, rfl, rfl, rfl, rfl, rfl, rfl, rfl⟩
  · split <;> exact ⟨rfl, rfl, rfl, rfl, rfl, rfl, rfl, rfl⟩

theorem openFile_fh (fs : RemoteFS) (ino flags now : Nat) (net : Except Unit (List Nat)) :
    (fs.openFile ino flags now net).1 = fs.fh_counter + 1 ∧
    (fs.openFile ino flags now net).2.1.fh_counter = fs.fh_counter + 1 := by
  dsimp only [RemoteFS.openFile]
  split
  · cases hip : lookupA fs.inode_to_path ino with
    | none =>
      simp only [RemoteFS.inode_path, hip]
      refine ⟨?_, ?_⟩ <;> first | rfl | trivial
    | some path =>
      simp only [RemoteFS.inode_path, hip]
      split
      · exact ⟨rfl, rfl⟩
      · have hpres := fetch_file_preserves
          { fs with fh_counter := fs.fh_counter + 1 } path now net
        rcases hq : ({ fs with fh_counter := fs.fh_counter + 1 } : RemoteFS).fetch_file
            path now net with ⟨res, fs2, tr⟩
        rw [hq] at hpres
        cases res with
        | ok data =>
          simp only [hq]
          refine ⟨?_, ?_⟩ <;> first | rfl | trivial | exact hpres.2.2.2.2.1
        | error e =>
          simp only [hq]
          refine ⟨?_, ?_⟩ <;> first | rfl | trivial | exact hpres.2.2.2.2.1
  · exact ⟨rfl, rfl⟩

/-! ## Claim C10: `open` always succeeds with a fresh handle -/

/-- C10: `open` always replies success (`opened(fh, 0)`) with
`fh = fh_counter + 1`, which — since every registered handle is at most the
old counter — was never used before, for every inode and flag combination;
and when write access or truncation is requested, the inode resolves, and
the prefetch fails (no fresh cache entry and the network GET errors), a
write buffer with an empty scratch file and a clear dirty flag is still
registered for the new handle. -/
theorem C10_open_contract (fs : RemoteFS) (ino flags now : Nat)
    (net : Except Unit (List Nat)) (hfh : FhInv fs) :
    (fs.openFile ino flags now net).1 = fs.fh_counter + 1 ∧
    lookupA fs.write_buffers (fs.fh_counter + 1) = none ∧
    (fs.openFile ino flags now net).2.1.fh_counter = fs.fh_counter + 1 ∧
    (∀ path, ((flags &&& O_ACCMODE = O_WRONLY ∨ flags &&& O_ACCMODE = O_RDWR) ∨
        flags &&& O_TRUNC ≠ 0) →
      fs.inode_path ino = some path →
      flags &&& O_TRUNC = 0 →
      (∀ cached, lookupA fs.file_cache path = some cached →
        ¬ (now - cached.cached_at < fs.cache_config.file_ttl)) →
      net = Except.error () →
      lookupA (fs.openFile ino flags now net).2.1.write_buffers (fs.fh_counter + 1) =
        some { file := { data := [], pos := 0 }, path := path, dirty := false }) := by
  have hfresh : lookupA fs.write_buffers (fs.fh_counter + 1) = none := by
    cases h : lookupA fs.write_buffers (fs.fh_counter + 1) with
    | none => rfl
    | some v =>
      have hm := mem_of_lookupA_eq_some h
      have := hfh _ hm
      omega
  refine ⟨(openFile_fh fs ino flags now net).1, hfresh,
    (openFile_fh fs ino flags now net).2, ?_⟩
  intro path hw hp ht hstale hnet
  subst hnet
  have hmiss : ({ fs with fh_counter := fs.fh_counter + 1 } : RemoteFS).fetch_file path now
      (Except.error ()) =
      (Except.error (), { fs with fh_counter := fs.fh_counter + 1 }, [HttpReq.getFull path]) := by
    unfold RemoteFS.fetch_file RemoteFS.fetch_file_miss
    cases hc : lookupA fs.file_cache path with
    | none => simp [hc]
    | some cached =>
      have := hstale cached hc
      simp only [hc]
      rw [if_neg (by simpa using this)]
  dsimp only [RemoteFS.openFile]
  rw [if_pos (by
    rcases hw with hw | hw
    · exact Or.inl hw
    · exact Or.inr hw)]
  have hp1 : lookupA fs.inode_to_path ino = some path := hp
  simp only [RemoteFS.inode_path, hp1]
  rw [if_neg (not_ne_iff.mpr ht)]
  simp only [hmiss]
  simp [lookupA_insert_self]

/-- Witness for C10: opening root write-only (`flags = 1`) on a fresh mount
with the prefetch GET failing yields fh 1 and registers the empty clean
buffer (the construction of `fsOpened`). -/
theorem C10_witness :
    FhInv (RemoteFS.new cfg1) ∧
    ((RemoteFS.new cfg1).openFile 1 1 0 (Except.error ())).1 = 1 ∧
    lookupA ((RemoteFS.new cfg1).openFile 1 1 0 (Except.error ())).2.1.write_buffers 1 =
      some { file := { data := [], pos := 0 }, path := [], dirty := false } := by
  have h := C10_open_contract (RemoteFS.new cfg1) 1 1 0 (Except.error ()) (by decide)
  exact ⟨by decide, h.1,
    h.2.2.2 [] (Or.inl (Or.inl (by decide))) (by decide) (by decide)
      (fun cached hc => by simp [RemoteFS.new, lookupA] at hc) rfl⟩

/-! ## Claim C4: the three-tier read decision order -/

/-- C4: `read` follows a fixed decision order. (1) If a write buffer is
registered for `fh`, the reply is the scratch file's bytes at `offset`
(up to `size`), no HTTP request is issued, and the cache is not consulted —
the result is the same for every network outcome. (2) Otherwise, with a
fresh body-cache entry for the path, the reply is the slice of the cached
body and no HTTP request is issued. (3) Otherwise a byte-range request for
exactly the requested `(offset, size)` window is issued and, when it
succeeds, exactly its bytes are returned. -/
theorem C4_read_tiers (fs : RemoteFS) (ino fh offset size now : Nat)
    (net : Except Unit (List Nat)) :
    (∀ buf, lookupA fs.write_buffers fh = some buf →
      (fs.read ino fh offset size now true true net).1 =
        .ok ((buf.file.data.drop offset).take size) ∧
      (fs.read ino fh offset size now true true net).2.2 = []) ∧
    (∀ path cached, lookupA fs.write_buffers fh = none →
      fs.inode_path ino = some path →
      lookupA fs.file_cache path = some cached →
      now - cached.cached_at < fs.cache_config.file_ttl →
      (∀ seekOk readOk,
        (fs.read ino fh offset size now seekOk readOk net).1 =
          .ok (if offset ≥ cached.data.length then []
               else (cached.data.drop offset).take
                 (min (offset + size) cached.data.length - offset)) ∧
        (fs.read ino fh offset size now seekOk readOk net).2.2 = [])) ∧
    (∀ path, lookupA fs.write_buffers fh = none →
      fs.inode_path ino = some path →
      (∀ cached, lookupA fs.file_cache path = some cached →
        ¬ (now - cached.cached_at < fs.cache_config.file_ttl)) →
      (∀ seekOk readOk,
        (fs.read ino fh offset size now seekOk readOk net).2.2 =
          [HttpReq.getRange path offset size] ∧
        (∀ bytes, net = .ok bytes →
          (fs.read ino fh offset size now seekOk readOk net).1 = .ok bytes))) := by
  refine ⟨?_, ?_, ?_⟩
  · intro buf hb
    simp only [RemoteFS.read, hb]
    simp [ScratchFile.readAt, ScratchFile.seekStart]
  · intro path cached hb hp hc hfresh seekOk readOk
    simp only [RemoteFS.read, hb, RemoteFS.inode_path] at *
    simp only [hp, hc]
    rw [if_pos hfresh]
    exact ⟨rfl, rfl⟩
  · intro path hb hp hstale seekOk readOk
    simp only [RemoteFS.read, hb, RemoteFS.inode_path] at *
    simp only [hp]
    cases hc : lookupA fs.file_cache path with
    | none =>
      cases net with
      | ok bytes => exact ⟨rfl, fun b hb2 => by cases hb2; rfl⟩
      | error e => exact ⟨rfl, fun b hb2 => by cases hb2⟩
    | some cached =>
      dsimp only
      rw [if_neg (hstale cached hc)]
      cases net with
      | ok bytes => exact ⟨rfl, fun b hb2 => by cases hb2; rfl⟩
      | error e => exact ⟨rfl, fun b hb2 => by cases hb2⟩

/-- Witness for C4: on `fsDirty` (fh 1 holds scratch bytes `[7, 8]`), a
read through fh 1 returns the scratch bytes even though the network result
is different (`[9]`); on a state whose cache holds `[1, 2, 3]` for the root
path, a bufferless read slices the cache; and on a fresh mount a bufferless
read issues exactly the requested byte-range window. -/
theorem C4_witness :
    ((fsDirty.read 1 1 0 4096 0 true true (.ok [9])).1 = .ok [7, 8] ∧
      (fsDirty.read 1 1 0 4096 0 true true (.ok [9])).2.2 = []) ∧
    (((((RemoteFS.new cfg1).openFile 1 1 0 (.ok [1, 2, 3])).2.1.read
        1 99 1 4096 0 true true (.error ())).1 = .ok [2, 3]) ∧
      ((((RemoteFS.new cfg1).openFile 1 1 0 (.ok [1, 2, 3])).2.1.read
        1 99 1 4096 0 true true (.error ())).2.2 = [])) ∧
    (((RemoteFS.new cfg1).read 1 1 5 7 0 true true (.ok [0, 0])).2.2 =
        [HttpReq.getRange [] 5 7] ∧
      ((RemoteFS.new cfg1).read 1 1 5 7 0 true true (.ok [0, 0])).1 = .ok [0, 0]) := by
  refine ⟨?_, ?_, ?_⟩
  · exact ((C4_read_tiers fsDirty 1 1 0 4096 0 (.ok [9])).1
      { file := { data := [7, 8], pos := 2 }, path := [], dirty := true } (by decide))
  · have h := (C4_read_tiers (((RemoteFS.new cfg1).openFile 1 1 0 (.ok [1, 2, 3])).2.1)
      1 99 1 4096 0 (.error ())).2.1 [] { data := [1, 2, 3], cached_at := 0 }
      (by decide) (by decide) (by decide) (by decide) true true
    refine ⟨?_, h.2⟩
    rw [h.1]
    decide
  · have h := (C4_read_tiers (RemoteFS.new cfg1) 1 1 5 7 0 (.ok [0, 0])).2.2 []
      (by decide) (by decide) (fun cached hc => by simp [RemoteFS.new, lookupA] at hc)
      true true
    exact ⟨h.1, h.2 [0, 0] rfl⟩

/-! ## Claim C8: reads at or past end-of-data reply empty, on all tiers -/

/-- C8: a read whose `offset` is at or beyond the end of the data replies
with an empty byte sequence, not an error, on each tier: (1) scratch reads
through a write buffer, (2) cache-served reads, and (3) byte-range remote
reads against the (spec-modelled) server. -/
theorem C8_read_beyond_eof (fs : RemoteFS) (ino fh offset size now : Nat) :
    (∀ buf, lookupA fs.write_buffers fh = some buf →
      buf.file.data.length ≤ offset →
      (∀ net, (fs.read ino fh offset size now true true net).1 = .ok [])) ∧
    (∀ path cached, lookupA fs.write_buffers fh = none →
      fs.inode_path ino = some path →
      lookupA fs.file_cache path = some cached →
      now - cached.cached_at < fs.cache_config.file_ttl →
      cached.data.length ≤ offset →
      (∀ net, (fs.read ino fh offset size now true true net).1 = .ok [])) ∧
    (∀ path (srv : Server) (bytes : List Nat), lookupA fs.write_buffers fh = none →
      fs.inode_path ino = some path →
      (∀ cached, lookupA fs.file_cache path = some cached →
        ¬ (now - cached.cached_at < fs.cache_config.file_ttl)) →
      lookupA srv.files path = some bytes →
      bytes.length ≤ offset →
      (fs.read ino fh offset size now true true
        (srv.getRange path offset size)).1 = .ok []) := by
  refine ⟨?_, ?_, ?_⟩
  · intro buf hb hoff net
    have h := ((C4_read_tiers fs ino fh offset size now net).1 buf hb).1
    rw [h, List.drop_eq_nil_of_le hoff]
    simp
  · intro path cached hb hp hc hfresh hoff net
    have h := ((C4_read_tiers fs ino fh offset size now net).2.1 path cached
      hb hp hc hfresh true true).1
    rw [h, if_pos hoff]
  · intro path srv bytes hb hp hstale hsrv hoff
    have hnet : srv.getRange path offset size = .ok [] := by
      unfold Server.getRange
      rw [hsrv]
      dsimp only
      rw [List.drop_eq_nil_of_le hoff]
      simp
    have h := ((C4_read_tiers fs ino fh offset size now
      (srv.getRange path offset size)).2.2 path hb hp hstale true true).2 [] hnet
    exact h

/-- Witness for C8: beyond-EOF reads on all three tiers reply `.ok []` —
through the dirty buffer of `fsDirty` (2 bytes, read at offset 5), through
a fresh 3-byte cache entry read at offset 7, and through the spec-modelled
server's range response for a 2-byte file read at offset 9. -/
theorem C8_witness :
    (fsDirty.read 1 1 5 4096 0 true true (.error ())).1 = .ok [] ∧
    ((((RemoteFS.new cfg1).openFile 1 1 0 (.ok [1, 2, 3])).2.1.read
        1 99 7 4096 0 true true (.error ())).1 = .ok []) ∧
    ((RemoteFS.new cfg1).read 1 1 9 4 0 true true
        (Server.getRange { files := [([], [5, 6])], dirs := [] } [] 9 4)).1 = .ok [] := by
  refine ⟨?_, ?_, ?_⟩
  · exact (C8_read_beyond_eof fsDirty 1 1 5 4096 0).1
      { file := { data := [7, 8], pos := 2 }, path := [], dirty := true }
      (by decide) (by decide) (.error ())
  · exact (C8_read_beyond_eof (((RemoteFS.new cfg1).openFile 1 1 0 (.ok [1, 2, 3])).2.1)
      1 99 7 4096 0).2.1 [] { data := [1, 2, 3], cached_at := 0 }
      (by decide) (by decide) (by decide) (by decide) (by decide) (.error ())
  · exact (C8_read_beyond_eof (RemoteFS.new cfg1) 1 1 9 4 0).2.2 []
      { files := [([], [5, 6])], dirs := [] } [5, 6] (by decide) (by decide)
      (fun cached hc => by simp [RemoteFS.new, lookupA] at hc) (by decide) (by decide)

/-! ## Lemmas for the eviction loop and the cache byte budget (claim C2) -/

theorem lookupA_none_of_not_mem_keys {κ ν : Type} [DecidableEq κ] {m : List (κ × ν)} {k : κ}
    (h : k ∉ keysA m) : lookupA m k = none := by
  induction m with
  | nil => rfl
  | cons kv rest ih =>
    have h1 : kv.1 ≠ k := by
      intro he
      apply h
      show k ∈ kv.1 :: keysA rest
      rw [he]
      exact List.mem_cons_self _ _
    have h2 : k ∉ keysA rest := by
      intro hm
      apply h
      show k ∈ kv.1 :: keysA rest
      exact List.mem_cons_of_mem _ hm
    simp only [lookupA, h1, if_false]
    exact ih h2

theorem removeA_eq_of_lookup_none {κ ν : Type} [DecidableEq κ] {m : List (κ × ν)} {k : κ}
    (h : lookupA m k = none) : removeA m k = m := by
  induction m with
  | nil => rfl
  | cons kv rest ih =>
    by_cases hk : kv.1 = k
    · simp [lookupA, hk] at h
    · rw [removeA_cons_ne kv rest k hk, ih (by simpa [lookupA, hk] using h)]

theorem cacheSumF_cons (kv : RPath × CachedFile) (rest : List (RPath × CachedFile)) :
    cacheSumF (kv :: rest) = kv.2.data.length + cacheSumF rest := by
  simp [cacheSumF]

theorem cacheSumF_removeA_le (m : List (RPath × CachedFile)) (k : RPath) :
    cacheSumF (removeA m k) ≤ cacheSumF m := by
  induction m with
  | nil => exact le_refl _
  | cons kv rest ih =>
    by_cases hk : kv.1 = k
    · rw [removeA_cons_self kv rest k hk, cacheSumF_cons]
      omega
    · rw [removeA_cons_ne kv rest k hk, cacheSumF_cons, cacheSumF_cons]
      omega

theorem cacheSumF_removeA_add (m : List (RPath × CachedFile)) (k : RPath) (e : CachedFile)
    (hnd : (keysA m).Nodup) (h : lookupA m k = some e) :
    cacheSumF (removeA m k) + e.data.length = cacheSumF m := by
  induction m with
  | nil => simp [lookupA] at h
  | cons kv rest ih =>
    have hnd2 : kv.1 ∉ keysA rest ∧ (keysA rest).Nodup := by
      have : (kv.1 :: keysA rest).Nodup := hnd
      exact ⟨(List.nodup_cons.mp this).1, (List.nodup_cons.mp this).2⟩
    by_cases hk : kv.1 = k
    · have he : kv.2 = e := by simpa [lookupA, hk] using h
      rw [removeA_cons_self kv rest k hk]
      have hnone : lookupA rest k = none := by
        apply lookupA_none_of_not_mem_keys
        intro hmem
        apply hnd2.1
        rw [hk]
        exact hmem
      rw [removeA_eq_of_lookup_none hnone, cacheSumF_cons, he]
      omega
    · have h2 : lookupA rest k = some e := by simpa [lookupA, hk] using h
      rw [removeA_cons_ne kv rest k hk, cacheSumF_cons, cacheSumF_cons]
      have := ih hnd2.2 h2
      omega

theorem oldestEntry_mem : ∀ (m : List (RPath × CachedFile)) (kv : RPath × CachedFile),
    oldestEntry m = some kv → kv ∈ m := by
  intro m
  induction m with
  | nil => intro kv h; simp [oldestEntry] at h
  | cons a rest ih =>
    intro kv h
    cases ho : oldestEntry rest with
    | none =>
      simp only [oldestEntry, ho, Option.some.injEq] at h
      rw [← h]
      exact List.mem_cons_self _ _
    | some kv' =>
      simp only [oldestEntry, ho] at h
      by_cases hlt : kv'.2.cached_at < a.2.cached_at
      · rw [if_pos hlt, Option.some.injEq] at h
        rw [← h]
        exact List.mem_cons_of_mem _ (ih kv' ho)
      · rw [if_neg hlt, Option.some.injEq] at h
        rw [← h]
        exact List.mem_cons_self _ _

theorem oldestEntry_none (m : List (RPath × CachedFile)) (h : oldestEntry m = none) :
    m = [] := by
  cases m with
  | nil => rfl
  | cons a rest =>
    exfalso
    cases ho : oldestEntry rest with
    | none =>
      simp only [oldestEntry, ho] at h
      exact Option.noConfusion h
    | some kv' =>
      simp only [oldestEntry, ho] at h
      by_cases hlt : kv'.2.cached_at < a.2.cached_at
      · rw [if_pos hlt] at h
        exact Option.noConfusion h
      · rw [if_neg hlt] at h
        exact Option.noConfusion h

theorem removeA_length_lt (m : List (RPath × CachedFile)) (kv : RPath × CachedFile)
    (h : kv ∈ m) : (removeA m kv.1).length < m.length := by
  induction m with
  | nil => simp at h
  | cons a rest ih =>
    by_cases hk : a.1 = kv.1
    · rw [removeA_cons_self a rest kv.1 hk]
      have := List.length_filter_le (fun x => decide (x.1 ≠ kv.1)) rest
      simp only [removeA, List.length_cons]
      omega
    · rw [removeA_cons_ne a rest kv.1 hk]
      have hkr : kv ∈ rest := by
        rcases List.mem_cons.mp h with he | hm
        · exact absurd (by rw [he]) hk
        · exact hm
      have := ih hkr
      simp only [List.length_cons]
      omega

theorem evictGo_spec (max newLen : Nat) :
    ∀ (fuel : Nat) (m : List (RPath × CachedFile)) (s : Nat),
      (keysA m).Nodup → cacheSumF m ≤ s → m.length < fuel →
      (keysA (evictGo max newLen fuel m s).1).Nodup ∧
      cacheSumF (evictGo max newLen fuel m s).1 ≤ (evictGo max newLen fuel m s).2 ∧
      ((evictGo max newLen fuel m s).2 + newLen ≤ max ∨
        (evictGo max newLen fuel m s).1 = []) := by
  intro fuel
  induction fuel with
  | zero =>
    intro m s _ _ hlen
    exact absurd hlen (by omega)
  | succ fuel ih =>
    intro m s hnd hle hlen
    simp only [evictGo]
    split
    · cases ho : oldestEntry m with
      | none =>
        have hm := oldestEntry_none m ho
        exact ⟨hnd, hle, Or.inr hm⟩
      | some kv =>
        have hmem := oldestEntry_mem m kv ho
        have hlk : lookupA m kv.1 = some kv.2 := lookupA_eq_some_of_mem hnd hmem
        have hsum := cacheSumF_removeA_add m kv.1 kv.2 hnd hlk
        apply ih
        · exact nodup_keysA_removeA _ hnd
        · omega
        · have := removeA_length_lt m kv hmem
          omega
    · exact ⟨hnd, hle, Or.inl (by omega)⟩

theorem evictGo_lookup_none (max newLen : Nat) :
    ∀ (fuel : Nat) (m : List (RPath × CachedFile)) (s : Nat) (k : RPath),
      lookupA m k = none → lookupA (evictGo max newLen fuel m s).1 k = none := by
  intro fuel
  induction fuel with
  | zero => intro m s k h; exact h
  | succ fuel ih =>
    intro m s k h
    simp only [evictGo]
    split
    · cases ho : oldestEntry m with
      | none => exact h
      | some kv =>
        apply ih
        by_cases hk : k = kv.1
        · rw [hk]; exact lookupA_remove_self m kv.1
        · rw [lookupA_remove_ne m kv.1 k hk]; exact h
    · exact h

theorem CacheInv_transfer {fs fs' : RemoteFS} (hc : fs'.file_cache = fs.file_cache)
    (hs : fs'.file_cache_size = fs.file_cache_size)
    (hcfg : fs'.cache_config = fs.cache_config) (h : CacheInv fs) : CacheInv fs' := by
  unfold CacheInv at *
  rw [hc, hs, hcfg]
  exact h

theorem invalidate_CacheInv (fs : RemoteFS) (p : RPath) (h : CacheInv fs) :
    CacheInv (fs.invalidate p) := by
  obtain ⟨hnd, hle, hbud⟩ := h
  unfold RemoteFS.invalidate
  cases hc : lookupA fs.file_cache p with
  | none => exact ⟨hnd, hle, hbud⟩
  | some e =>
    have hsum := cacheSumF_removeA_add fs.file_cache p e hnd hc
    unfold CacheInv
    dsimp only
    refine ⟨nodup_keysA_removeA _ hnd, by omega, ?_⟩
    rcases hbud with hb | hb
    · left
      have := cacheSumF_removeA_le fs.file_cache p
      omega
    · cases hm : fs.file_cache with
      | nil =>
        rw [hm] at hc
        simp [lookupA] at hc
      | cons kv rest =>
        rw [hm] at hb
        simp only [List.length_cons] at hb
        have hrest : rest = [] := List.length_eq_zero.mp (by omega)
        rw [hm, hrest] at hc
        have hk : kv.1 = p := by
          by_cases hk : kv.1 = p
          · exact hk
          · simp [lookupA, hk] at hc
        left
        rw [hrest, removeA_cons_self kv [] p hk]
        simp [removeA, cacheSumF]

theorem fetch_file_miss_CacheInv (fs : RemoteFS) (p : RPath) (now : Nat)
    (net : Except Unit (List Nat)) (h : CacheInv fs) :
    CacheInv (fs.fetch_file_miss p now net).2.1 := by
  obtain ⟨hnd, hle, hbud⟩ := h
  unfold RemoteFS.fetch_file_miss
  cases net with
  | error e => exact ⟨hnd, hle, hbud⟩
  | ok data =>
    have hspec := evictGo_spec fs.cache_config.max_file_cache_bytes data.length
      (fs.file_cache.length + 1) fs.file_cache fs.file_cache_size hnd hle (by omega)
    rcases hq : evictGo fs.cache_config.max_file_cache_bytes data.length
      (fs.file_cache.length + 1) fs.file_cache fs.file_cache_size with ⟨m1, s1⟩
    rw [hq] at hspec
    have hnd1 : (keysA m1).Nodup := hspec.1
    have hle1 : cacheSumF m1 ≤ s1 := hspec.2.1
    have hbud1 : s1 + data.length ≤ fs.cache_config.max_file_cache_bytes ∨ m1 = [] :=
      hspec.2.2
    unfold CacheInv
    dsimp only
    rw [hq]
    refine ⟨nodup_keysA_insertA _ _ hnd1, ?_, ?_⟩
    · simp only [insertA, cacheSumF_cons]
      have h1 := cacheSumF_removeA_le m1 p
      omega
    · rcases hbud1 with hca | hca
      · left
        simp only [insertA, cacheSumF_cons]
        have h1 := cacheSumF_removeA_le m1 p
        omega
      · right
        rw [hca]
        rfl

theorem fetch_file_CacheInv (fs : RemoteFS) (p : RPath) (now : Nat)
    (net : Except Unit (List Nat)) (h : CacheInv fs) :
    CacheInv (fs.fetch_file p now net).2.1 := by
  unfold RemoteFS.fetch_file
  split
  · split
    · exact h
    · exact fetch_file_miss_CacheInv fs p now net h
  · exact fetch_file_miss_CacheInv fs p now net h

theorem alloc_inode_CacheInv (fs : RemoteFS) (p : RPath) (h : CacheInv fs) :
    CacheInv (fs.alloc_inode p).2 := by
  dsimp only [RemoteFS.alloc_inode]
  split
  · exact h
  · exact CacheInv_transfer rfl rfl rfl h

theorem foldl_alloc_CacheInv (entries : List RemoteEntry) (pp : RPath) :
    ∀ fs : RemoteFS, CacheInv fs →
      CacheInv (entries.foldl (fun s e => (s.alloc_inode (join_path pp e.name)).2) fs) := by
  induction entries with
  | nil => intro fs h; exact h
  | cons e rest ih =>
    intro fs h
    exact ih _ (alloc_inode_CacheInv _ _ h)

theorem remove_inode_CacheInv (fs : RemoteFS) (p : RPath) (h : CacheInv fs) :
    CacheInv (fs.remove_inode p) := by
  dsimp only [RemoteFS.remove_inode]
  split
  · exact CacheInv_transfer rfl rfl rfl h
  · exact h

theorem list_dir_CacheInv (fs : RemoteFS) (p : RPath) (now : Nat)
    (net : Except Unit (List RemoteEntry)) (h : CacheInv fs) :
    CacheInv (fs.list_dir p now net).2.1 := by
  have hp := list_dir_preserves fs p now net
  exact CacheInv_transfer hp.2.2.2.2.2.2.1 hp.2.2.2.2.2.2.2 hp.2.2.2.2.2.1 h

theorem lookup_CacheInv (fs : RemoteFS) (parent : Nat) (name : RPath) (now : Nat)
    (net : Except Unit (List RemoteEntry)) (h : CacheInv fs) :
    CacheInv (fs.lookup parent name now net).2.1 := by
  dsimp only [RemoteFS.lookup]
  rcases hq : fs.list_dir (fs.child_path parent name).1 now net with ⟨res, fs1, tr⟩
  have h1 : CacheInv fs1 := by
    have := list_dir_CacheInv fs (fs.child_path parent name).1 now net h
    rw [hq] at this
    exact this
  cases res with
  | ok entries =>
    dsimp only
    cases hf : entries.find? (fun e => decide (e.name = name)) with
    | some e => exact alloc_inode_CacheInv fs1 _ h1
    | none => exact h1
  | error e => exact h1

theorem getattr_CacheInv (fs : RemoteFS) (ino now : Nat)
    (net : Except Unit (List RemoteEntry)) (h : CacheInv fs) :
    CacheInv (fs.getattr ino now net).2.1 := by
  dsimp only [RemoteFS.getattr]
  split
  · exact h
  · cases hp : fs.inode_path ino with
    | none => exact h
    | some path =>
      dsimp only
      rcases hq : fs.list_dir (parent_of path) now net with ⟨res, fs1, tr⟩
      have h1 : CacheInv fs1 := by
        have := list_dir_CacheInv fs (parent_of path) now net h
        rw [hq] at this
        exact this
      cases res with
      | ok entries =>
        dsimp only
        cases hf : entries.find? (fun e => decide (e.name = baseName path)) with
        | some e => exact h1
        | none => exact h1
      | error e => exact h1

theorem readdir_CacheInv (fs : RemoteFS) (ino offset now : Nat)
    (net : Except Unit (List RemoteEntry)) (h : CacheInv fs) :
    CacheInv (fs.readdir ino offset now net).2.1 := by
  dsimp only [RemoteFS.readdir]
  split
  · rcases hq : fs.list_dir ((fs.inode_path ino).getD []) now net with ⟨res, fs1, tr⟩
    have h1 : CacheInv fs1 := by
      have := list_dir_CacheInv fs ((fs.inode_path ino).getD []) now net h
      rw [hq] at this
      exact this
    cases res with
    | ok entries =>
      dsimp only
      exact foldl_alloc_CacheInv entries _ fs1 h1
    | error e => exact h1
  · exact h

theorem openFile_CacheInv (fs : RemoteFS) (ino flags now : Nat)
    (net : Except Unit (List Nat)) (h : CacheInv fs) :
    CacheInv (fs.openFile ino flags now net).2.1 := by
  have h1 : CacheInv ({ fs with fh_counter := fs.fh_counter + 1 } : RemoteFS) :=
    CacheInv_transfer rfl rfl rfl h
  dsimp only [RemoteFS.openFile]
  split
  · cases hip : lookupA fs.inode_to_path ino with
    | none =>
      simp only [RemoteFS.inode_path, hip]
      exact h1
    | some path =>
      simp only [RemoteFS.inode_path, hip]
      split
      · exact CacheInv_transfer rfl rfl rfl h1
      · rcases hq : ({ fs with fh_counter := fs.fh_counter + 1 } : RemoteFS).fetch_file
          path now net with ⟨res, fs2, tr⟩
        have h2 : CacheInv fs2 := by
          have := fetch_file_CacheInv { fs with fh_counter := fs.fh_counter + 1 }
            path now net h1
          rw [hq] at this
          exact this
        cases res with
        | ok data =>
          dsimp only
          exact CacheInv_transfer rfl rfl rfl h2
        | error e =>
          dsimp only
          exact CacheInv_transfer rfl rfl rfl h2
  · exact h1

theorem read_CacheInv (fs : RemoteFS) (ino fh offset size now : Nat)
    (seekOk readOk : Bool) (net : Except Unit (List Nat)) (h : CacheInv fs) :
    CacheInv (fs.read ino fh offset size now seekOk readOk net).2.1 := by
  dsimp only [RemoteFS.read]
  cases hb : lookupA fs.write_buffers fh with
  | some buf =>
    dsimp only
    split
    · exact h
    · split
      · exact CacheInv_transfer rfl rfl rfl h
      · exact CacheInv_transfer rfl rfl rfl h
  | none =>
    dsimp only
    cases hp : fs.inode_path ino with
    | none => exact h
    | some path =>
      dsimp only
      cases hc : lookupA fs.file_cache path with
      | some cached =>
        dsimp only
        split
        · exact h
        · cases net with
          | ok data => exact h
          | error e => exact h
      | none =>
        cases net with
        | ok data => exact h
        | error e => exact h

theorem create_CacheInv (fs : RemoteFS) (parent : Nat) (name : RPath) (putOk : Bool)
    (h : CacheInv fs) : CacheInv (fs.create parent name putOk).2.1 := by
  dsimp only [RemoteFS.create]
  split
  · exact CacheInv_transfer rfl rfl rfl
      (alloc_inode_CacheInv _ _ (invalidate_CacheInv _ _ h))
  · exact h

theorem write_CacheInv (fs : RemoteFS) (fh offset : Nat) (data : List Nat)
    (seekOk writeOk : Bool) (h : CacheInv fs) :
    CacheInv (fs.write fh offset data seekOk writeOk).2 := by
  dsimp only [RemoteFS.write]
  cases hb : lookupA fs.write_buffers fh with
  | none => exact h
  | some buf =>
    dsimp only
    split
    · exact h
    · split
      · exact h
      · exact CacheInv_transfer rfl rfl rfl h

theorem flush_CacheInv (fs : RemoteFS) (fh : Nat) (readOk putOk : Bool)
    (h : CacheInv fs) : CacheInv (fs.flush fh readOk putOk).2.1 := by
  dsimp only [RemoteFS.flush]
  cases hb : lookupA fs.write_buffers fh with
  | none => exact h
  | some buf =>
    dsimp only
    split
    · exact h
    · split
      · exact CacheInv_transfer rfl rfl rfl h
      · split
        · exact invalidate_CacheInv _ _ (CacheInv_transfer rfl rfl rfl h)
        · exact CacheInv_transfer rfl rfl rfl h

theorem release_CacheInv (fs : RemoteFS) (fh : Nat) (h : CacheInv fs) :
    CacheInv (fs.release fh).2 :=
  CacheInv_transfer rfl rfl rfl h

theorem mkdir_CacheInv (fs : RemoteFS) (parent : Nat) (name : RPath) (mkOk : Bool)
    (h : CacheInv fs) : CacheInv (fs.mkdir parent name mkOk).2.1 := by
  dsimp only [RemoteFS.mkdir]
  split
  · exact alloc_inode_CacheInv _ _ (invalidate_CacheInv _ _ h)
  · exact h

theorem unlink_CacheInv (fs : RemoteFS) (parent : Nat) (name : RPath) (delOk : Bool)
    (h : CacheInv fs) : CacheInv (fs.unlink parent name delOk).2.1 := by
  dsimp only [RemoteFS.unlink]
  split
  · exact remove_inode_CacheInv _ _ (invalidate_CacheInv _ _ h)
  · exact h

theorem rename_CacheInv (fs : RemoteFS) (parent : Nat) (name : RPath)
    (newparent : Nat) (newname : RPath) (now : Nat) (getRes : Except Unit (List Nat))
    (putOk delOk : Bool) (h : CacheInv fs) :
    CacheInv (fs.rename parent name newparent newname now getRes putOk delOk).2.1 := by
  dsimp only [RemoteFS.rename]
  have h1 : CacheInv ((fs.invalidate (fs.child_path parent name).2).invalidate
      (fs.child_path newparent newname).2) :=
    invalidate_CacheInv _ _ (invalidate_CacheInv _ _ h)
  rcases hq : ((fs.invalidate (fs.child_path parent name).2).invalidate
      (fs.child_path newparent newname).2).fetch_file (fs.child_path parent name).2 now getRes
    with ⟨res, fs2, tr⟩
  have h2 : CacheInv fs2 := by
    have := fetch_file_CacheInv ((fs.invalidate (fs.child_path parent name).2).invalidate
      (fs.child_path newparent newname).2) (fs.child_path parent name).2 now getRes h1
    rw [hq] at this
    exact this
  cases res with
  | error e => exact h2
  | ok data =>
    dsimp only
    split
    · exact h2
    · split
      · exact h2
      · cases hp : lookupA fs2.path_to_inode (fs.child_path parent name).2 with
        | some ino => exact CacheInv_transfer rfl rfl rfl h2
        | none => exact h2

theorem setattr_CacheInv (fs : RemoteFS) (ino : Nat) (size : Option Nat) (now : Nat)
    (putOk : Bool) (net : Except Unit (List RemoteEntry)) (h : CacheInv fs) :
    CacheInv (fs.setattr ino size now putOk net).2.1 := by
  dsimp only [RemoteFS.setattr]
  split
  · split
    · exact invalidate_CacheInv _ _ h
    · exact getattr_CacheInv fs ino now net h
  · exact getattr_CacheInv fs ino now net h

/-! ## Claim C2: the cache byte budget -/

/-- C2 (counterexample): with `max_file_cache_bytes = 0`, opening root
write-only with a 1-byte body fetched during the prefetch leaves the
file-body cache holding 1 byte — `sum(len(bytes)) = 1 > 0` — at the steady
point after the callback returns, so the claimed budget bound is false for
bodies that alone exceed the budget. -/
theorem C2_counterexample :
    CacheBudgetOk (RemoteFS.new cfg0) ∧
    ¬ CacheBudgetOk (step (RemoteFS.new cfg0) (FSOp.openFile 1 1 0 (.ok [7]))) := by
  refine ⟨by decide, by decide⟩

/-- C2 (amended): at every steady point, the invariant the code maintains
is: the file-body cache keys are unique, the byte counter over-approximates
the true byte total, and the true total is within `max_file_cache_bytes`
unless the cache consists of exactly the one most-recently inserted entry,
whose body alone may exceed the budget (the eviction loop stops when the
cache is empty and the body is then inserted unconditionally). Every
dispatcher operation preserves this invariant. -/
theorem C2_cache_budget_amended (fs : RemoteFS) (op : FSOp) (h : CacheInv fs) :
    CacheInv (step fs op) := by
  cases op with
  | lookup parent name now net => exact lookup_CacheInv fs parent name now net h
  | getattr ino now net => exact getattr_CacheInv fs ino now net h
  | readdir ino offset now net => exact readdir_CacheInv fs ino offset now net h
  | openFile ino flags now net => exact openFile_CacheInv fs ino flags now net h
  | read ino fh offset size now seekOk readOk net =>
    exact read_CacheInv fs ino fh offset size now seekOk readOk net h
  | create parent name putOk => exact create_CacheInv fs parent name putOk h
  | write fh offset data seekOk writeOk =>
    exact write_CacheInv fs fh offset data seekOk writeOk h
  | flush fh readOk putOk => exact flush_CacheInv fs fh readOk putOk h
  | release fh => exact release_CacheInv fs fh h
  | mkdir parent name mkOk => exact mkdir_CacheInv fs parent name mkOk h
  | unlink parent name delOk => exact unlink_CacheInv fs parent name delOk h
  | rmdir parent name delOk =>
    unfold step RemoteFS.rmdir
    exact unlink_CacheInv fs parent name delOk h
  | rename parent name newparent newname now getRes putOk delOk =>
    exact rename_CacheInv fs parent name newparent newname now getRes putOk delOk h
  | setattr ino size now putOk net => exact setattr_CacheInv fs ino size now putOk net h

/-- Witness for C2 (amended): the invariant holds on a fresh mount with the
zero budget and is preserved by the very open/fetch that violates the
as-stated budget bound. -/
theorem C2_witness :
    CacheInv (RemoteFS.new cfg0) ∧
    CacheInv (step (RemoteFS.new cfg0) (FSOp.openFile 1 1 0 (.ok [7]))) :=
  ⟨by decide, C2_cache_budget_amended (RemoteFS.new cfg0)
    (FSOp.openFile 1 1 0 (.ok [7])) (by decide)⟩

/-! ## Lemmas for the path/inode table (claim C3) -/

theorem mem_insertA_elim {κ ν : Type} [DecidableEq κ] {m : List (κ × ν)} {k : κ} {v : ν}
    {kv : κ × ν} (h : kv ∈ insertA m k v) : kv = (k, v) ∨ (kv ∈ m ∧ kv.1 ≠ k) := by
  rcases List.mem_cons.mp h with he | hm
  · exact Or.inl he
  · exact Or.inr (mem_of_mem_removeA hm)

theorem join_path_ne_nil (parent name : RPath) (h : name ≠ []) :
    join_path parent name ≠ [] := by
  unfold join_path
  split
  · exact h
  · simp

theorem PITInv_transfer {fs fs' : RemoteFS} (h1 : fs'.inode_to_path = fs.inode_to_path)
    (h2 : fs'.path_to_inode = fs.path_to_inode) (h3 : fs'.inode_counter = fs.inode_counter)
    (h : PITInv fs) : PITInv fs' := by
  unfold PITInv BiConsistent at *
  rw [h1, h2, h3]
  exact h

theorem alloc_inode_PITInv (fs : RemoteFS) (p : RPath) (h : PITInv fs) :
    PITInv (fs.alloc_inode p).2 := by
  obtain ⟨⟨hf, hr, hroot⟩, hnd1, hnd2, hbound⟩ := h
  dsimp only [RemoteFS.alloc_inode]
  cases hc : lookupA fs.path_to_inode p with
  | some ino => exact ⟨⟨hf, hr, hroot⟩, hnd1, hnd2, hbound⟩
  | none =>
    dsimp only
    have hpne : p ≠ [] := by
      intro he
      rw [he, hroot] at hc
      exact Option.noConfusion hc
    refine ⟨⟨?_, ?_, ?_⟩, ?_, ?_, ?_⟩
    · intro ip hip
      rcases mem_insertA_elim hip with he | ⟨hm, hne⟩
      · rw [he]
        exact lookupA_insert_self _ _ _
      · have hq := hf ip hm
        by_cases hqp : ip.2 = p
        · rw [hqp] at hq
          rw [hq] at hc
          exact Option.noConfusion hc
        · rw [lookupA_insert_ne _ _ _ _ hqp]
          exact hq
    · intro pi hpi
      rcases mem_insertA_elim hpi with he | ⟨hm, hne⟩
      · rw [he]
        exact lookupA_insert_self _ _ _
      · have hq := hr pi hm
        by_cases hip2 : pi.2 = fs.inode_counter + 1
        · exfalso
          have hmem := mem_of_lookupA_eq_some hq
          have hb : pi.2 ≤ fs.inode_counter := hbound _ hmem
          omega
        · rw [lookupA_insert_ne _ _ _ _ hip2]
          exact hq
    · rw [lookupA_insert_ne _ _ _ _ (fun he => hpne he.symm)]
      exact hroot
    · exact nodup_keysA_insertA _ _ hnd1
    · exact nodup_keysA_insertA _ _ hnd2
    · intro ip hip
      show ip.1 ≤ fs.inode_counter + 1
      rcases mem_insertA_elim hip with he | ⟨hm, hne⟩
      · rw [he]
      · have := hbound ip hm
        omega

theorem foldl_alloc_PITInv (entries : List RemoteEntry) (pp : RPath) :
    ∀ fs : RemoteFS, PITInv fs →
      PITInv (entries.foldl (fun s e => (s.alloc_inode (join_path pp e.name)).2) fs) := by
  induction entries with
  | nil => intro fs h; exact h
  | cons e rest ih =>
    intro fs h
    exact ih _ (alloc_inode_PITInv _ _ h)

theorem remove_inode_PITInv (fs : RemoteFS) (p : RPath) (hp : p ≠ []) (h : PITInv fs) :
    PITInv (fs.remove_inode p) := by
  obtain ⟨⟨hf, hr, hroot⟩, hnd1, hnd2, hbound⟩ := h
  dsimp only [RemoteFS.remove_inode]
  cases hc : lookupA fs.path_to_inode p with
  | none => exact ⟨⟨hf, hr, hroot⟩, hnd1, hnd2, hbound⟩
  | some ino =>
    have hip : lookupA fs.inode_to_path ino = some p := hr _ (mem_of_lookupA_eq_some hc)
    refine ⟨⟨?_, ?_, ?_⟩, nodup_keysA_removeA _ hnd1, nodup_keysA_removeA _ hnd2, ?_⟩
    · intro ip hipm
      obtain ⟨hm, hne⟩ := mem_of_mem_removeA hipm
      have hq := hf ip hm
      by_cases hqp : ip.2 = p
      · exfalso
        rw [hqp, hc] at hq
        have : ip.1 = ino := by
          have := Option.some.inj hq
          omega
        exact hne (by rw [this])
      · rw [lookupA_remove_ne _ _ _ hqp]
        exact hq
    · intro pi hpim
      obtain ⟨hm, hne⟩ := mem_of_mem_removeA hpim
      have hq := hr pi hm
      by_cases hpi2 : pi.2 = ino
      · exfalso
        rw [hpi2, hip] at hq
        exact hne (Option.some.inj hq).symm
      · rw [lookupA_remove_ne _ _ _ hpi2]
        exact hq
    · rw [lookupA_remove_ne _ _ _ (fun he => hp he.symm)]
      exact hroot
    · intro ip hipm
      exact hbound ip (mem_of_mem_removeA hipm).1

theorem rebind_PITInv (fs : RemoteFS) (old_path new_path : RPath) (ino : Nat)
    (h : PITInv fs) (hold : lookupA fs.path_to_inode old_path = some ino)
    (hnew : lookupA fs.path_to_inode new_path = none ∨ new_path = old_path)
    (ho : old_path ≠ []) (hn : new_path ≠ []) :
    PITInv { fs with
      path_to_inode := insertA (removeA fs.path_to_inode old_path) new_path ino,
      inode_to_path := insertA fs.inode_to_path ino new_path } := by
  obtain ⟨⟨hf, hr, hroot⟩, hnd1, hnd2, hbound⟩ := h
  have hio : lookupA fs.inode_to_path ino = some old_path :=
    hr _ (mem_of_lookupA_eq_some hold)
  refine ⟨⟨?_, ?_, ?_⟩, nodup_keysA_insertA _ _ hnd1,
    nodup_keysA_insertA _ _ (nodup_keysA_removeA _ hnd2), ?_⟩
  · intro ip hip
    rcases mem_insertA_elim hip with he | ⟨hm, hne⟩
    · rw [he]
      exact lookupA_insert_self _ _ _
    · have hq := hf ip hm
      by_cases hq2 : ip.2 = new_path
      · exfalso
        rcases hnew with hnone | heq
        · rw [hq2, hnone] at hq
          exact Option.noConfusion hq
        · rw [hq2, heq, hold] at hq
          exact hne (Option.some.inj hq).symm
      · rw [lookupA_insert_ne _ _ _ _ hq2]
        by_cases hq3 : ip.2 = old_path
        · exfalso
          rw [hq3, hold] at hq
          exact hne (Option.some.inj hq).symm
        · rw [lookupA_remove_ne _ _ _ hq3]
          exact hq
  · intro pi hpi
    rcases mem_insertA_elim hpi with he | ⟨hm, hne⟩
    · rw [he]
      exact lookupA_insert_self _ _ _
    · obtain ⟨hm2, hne2⟩ := mem_of_mem_removeA hm
      have hq := hr pi hm2
      by_cases hq2 : pi.2 = ino
      · exfalso
        rw [hq2, hio] at hq
        exact hne2 (Option.some.inj hq).symm
      · rw [lookupA_insert_ne _ _ _ _ hq2]
        exact hq
  · rw [lookupA_insert_ne _ _ _ _ (fun he => hn he.symm),
      lookupA_remove_ne _ _ _ (fun he => ho he.symm)]
    exact hroot
  · intro ip hip
    show ip.1 ≤ fs.inode_counter
    have hb2 : ino ≤ fs.inode_counter := hbound (ino, old_path) (mem_of_lookupA_eq_some hio)
    rcases mem_insertA_elim hip with he | ⟨hm, hne⟩
    · rw [he]
      exact hb2
    · exact hbound ip hm

theorem list_dir_PITInv (fs : RemoteFS) (p : RPath) (now : Nat)
    (net : Except Unit (List RemoteEntry)) (h : PITInv fs) :
    PITInv (fs.list_dir p now net).2.1 := by
  have hp := list_dir_preserves fs p now net
  exact PITInv_transfer hp.1 hp.2.1 hp.2.2.1 h

theorem lookup_PITInv (fs : RemoteFS) (parent : Nat) (name : RPath) (now : Nat)
    (net : Except Unit (List RemoteEntry)) (h : PITInv fs) :
    PITInv (fs.lookup parent name now net).2.1 := by
  dsimp only [RemoteFS.lookup]
  rcases hq : fs.list_dir (fs.child_path parent name).1 now net with ⟨res, fs1, tr⟩
  have h1 : PITInv fs1 := by
    have := list_dir_PITInv fs (fs.child_path parent name).1 now net h
    rw [hq] at this
    exact this
  cases res with
  | ok entries =>
    dsimp only
    cases hf : entries.find? (fun e => decide (e.name = name)) with
    | some e => exact alloc_inode_PITInv fs1 _ h1
    | none => exact h1
  | error e => exact h1

theorem getattr_PITInv (fs : RemoteFS) (ino now : Nat)
    (net : Except Unit (List RemoteEntry)) (h : PITInv fs) :
    PITInv (fs.getattr ino now net).2.1 := by
  dsimp only [RemoteFS.getattr]
  split
  · exact h
  · cases hp : fs.inode_path ino with
    | none => exact h
    | some path =>
      dsimp only
      rcases hq : fs.list_dir (parent_of path) now net with ⟨res, fs1, tr⟩
      have h1 : PITInv fs1 := by
        have := list_dir_PITInv fs (parent_of path) now net h
        rw [hq] at this
        exact this
      cases res with
      | ok entries =>
        dsimp only
        cases hf : entries.find? (fun e => decide (e.name = baseName path)) with
        | some e => exact h1
        | none => exact h1
      | error e => exact h1

theorem readdir_PITInv (fs : RemoteFS) (ino offset now : Nat)
    (net : Except Unit (List RemoteEntry)) (h : PITInv fs) :
    PITInv (fs.readdir ino offset now net).2.1 := by
  dsimp only [RemoteFS.readdir]
  split
  · rcases hq : fs.list_dir ((fs.inode_path ino).getD []) now net with ⟨res, fs1, tr⟩
    have h1 : PITInv fs1 := by
      have := list_dir_PITInv fs ((fs.inode_path ino).getD []) now net h
      rw [hq] at this
      exact this
    cases res with
    | ok entries =>
      dsimp only
      exact foldl_alloc_PITInv entries _ fs1 h1
    | error e => exact h1
  · exact h

theorem invalidate_PITInv (fs : RemoteFS) (p : RPath) (h : PITInv fs) :
    PITInv (fs.invalidate p) := by
  have hp := invalidate_pit fs p
  exact PITInv_transfer hp.1 hp.2.1 hp.2.2 h

theorem fetch_file_PITInv (fs : RemoteFS) (p : RPath) (now : Nat)
    (net : Except Unit (List Nat)) (h : PITInv fs) :
    PITInv (fs.fetch_file p now net).2.1 := by
  have hp := fetch_file_preserves fs p now net
  exact PITInv_transfer hp.1 hp.2.1 hp.2.2.1 h

theorem openFile_PITInv (fs : RemoteFS) (ino flags now : Nat)
    (net : Except Unit (List Nat)) (h : PITInv fs) :
    PITInv (fs.openFile ino flags now net).2.1 := by
  have h1 : PITInv ({ fs with fh_counter := fs.fh_counter + 1 } : RemoteFS) :=
    PITInv_transfer rfl rfl rfl h
  dsimp only [RemoteFS.openFile]
  split
  · cases hip : lookupA fs.inode_to_path ino with
    | none =>
      simp only [RemoteFS.inode_path, hip]
      exact h1
    | some path =>
      simp only [RemoteFS.inode_path, hip]
      split
      · exact PITInv_transfer rfl rfl rfl h1
      · rcases hq : ({ fs with fh_counter := fs.fh_counter + 1 } : RemoteFS).fetch_file
          path now net with ⟨res, fs2, tr⟩
        have h2 : PITInv fs2 := by
          have := fetch_file_PITInv { fs with fh_counter := fs.fh_counter + 1 }
            path now net h1
          rw [hq] at this
          exact this
        cases res with
        | ok data =>
          dsimp only
          exact PITInv_transfer rfl rfl rfl h2
        | error e =>
          dsimp only
          exact PITInv_transfer rfl rfl rfl h2
  · exact h1

theorem read_PITInv (fs : RemoteFS) (ino fh offset size now : Nat)
    (seekOk readOk : Bool) (net : Except Unit (List Nat)) (h : PITInv fs) :
    PITInv (fs.read ino fh offset size now seekOk readOk net).2.1 := by
  dsimp only [RemoteFS.read]
  cases hb : lookupA fs.write_buffers fh with
  | some buf =>
    dsimp only
    split
    · exact h
    · split
      · exact PITInv_transfer rfl rfl rfl h
      · exact PITInv_transfer rfl rfl rfl h
  | none =>
    dsimp only
    cases hp : fs.inode_path ino with
    | none => exact h
    | some path =>
      dsimp only
      cases hc : lookupA fs.file_cache path with
      | some cached =>
        dsimp only
        split
        · exact h
        · cases net with
          | ok data => exact h
          | error e => exact h
      | none =>
        cases net with
        | ok data => exact h
        | error e => exact h

theorem create_PITInv (fs : RemoteFS) (parent : Nat) (name : RPath) (putOk : Bool)
    (h : PITInv fs) : PITInv (fs.create parent name putOk).2.1 := by
  dsimp only [RemoteFS.create]
  split
  · exact PITInv_transfer rfl rfl rfl
      (alloc_inode_PITInv _ _ (invalidate_PITInv _ _ h))
  · exact h

theorem write_PITInv (fs : RemoteFS) (fh offset : Nat) (data : List Nat)
    (seekOk writeOk : Bool) (h : PITInv fs) :
    PITInv (fs.write fh offset data seekOk writeOk).2 := by
  dsimp only [RemoteFS.write]
  cases hb : lookupA fs.write_buffers fh with
  | none => exact h
  | some buf =>
    dsimp only
    split
    · exact h
    · split
      · exact h
      · exact PITInv_transfer rfl rfl rfl h

theorem flush_PITInv (fs : RemoteFS) (fh : Nat) (readOk putOk : Bool)
    (h : PITInv fs) : PITInv (fs.flush fh readOk putOk).2.1 := by
  dsimp only [RemoteFS.flush]
  cases hb : lookupA fs.write_buffers fh with
  | none => exact h
  | some buf =>
    dsimp only
    split
    · exact h
    · split
      · exact PITInv_transfer rfl rfl rfl h
      · split
        · exact invalidate_PITInv _ _ (PITInv_transfer rfl rfl rfl h)
        · exact PITInv_transfer rfl rfl rfl h

theorem release_PITInv (fs : RemoteFS) (fh : Nat) (h : PITInv fs) :
    PITInv (fs.release fh).2 :=
  PITInv_transfer rfl rfl rfl h

theorem mkdir_PITInv (fs : RemoteFS) (parent : Nat) (name : RPath) (mkOk : Bool)
    (h : PITInv fs) : PITInv (fs.mkdir parent name mkOk).2.1 := by
  dsimp only [RemoteFS.mkdir]
  split
  · exact alloc_inode_PITInv _ _ (invalidate_PITInv _ _ h)
  · exact h

theorem unlink_PITInv (fs : RemoteFS) (parent : Nat) (name : RPath) (delOk : Bool)
    (hn : name ≠ []) (h : PITInv fs) : PITInv (fs.unlink parent name delOk).2.1 := by
  dsimp only [RemoteFS.unlink]
  split
  · exact remove_inode_PITInv _ _
      (join_path_ne_nil _ _ hn) (invalidate_PITInv _ _ h)
  · exact h

theorem setattr_PITInv (fs : RemoteFS) (ino : Nat) (size : Option Nat) (now : Nat)
    (putOk : Bool) (net : Except Unit (List RemoteEntry)) (h : PITInv fs) :
    PITInv (fs.setattr ino size now putOk net).2.1 := by
  dsimp only [RemoteFS.setattr]
  split
  · split
    · exact invalidate_PITInv _ _ h
    · exact getattr_PITInv fs ino now net h
  · exact getattr_PITInv fs ino now net h

theorem rename_PITInv (fs : RemoteFS) (parent : Nat) (name : RPath)
    (newparent : Nat) (newname : RPath) (now : Nat) (getRes : Except Unit (List Nat))
    (putOk delOk : Bool) (hn1 : name ≠ []) (hn2 : newname ≠ [])
    (hsafe : lookupA fs.path_to_inode (fs.child_path newparent newname).2 = none ∨
      (fs.child_path newparent newname).2 = (fs.child_path parent name).2 ∨
      lookupA fs.path_to_inode (fs.child_path parent name).2 = none)
    (h : PITInv fs) :
    PITInv (fs.rename parent name newparent newname now getRes putOk delOk).2.1 := by
  dsimp only [RemoteFS.rename]
  have h1 : PITInv ((fs.invalidate (fs.child_path parent name).2).invalidate
      (fs.child_path newparent newname).2) :=
    invalidate_PITInv _ _ (invalidate_PITInv _ _ h)
  rcases hq : ((fs.invalidate (fs.child_path parent name).2).invalidate
      (fs.child_path newparent newname).2).fetch_file (fs.child_path parent name).2 now getRes
    with ⟨res, fs2, tr⟩
  have h2 : PITInv fs2 := by
    have := fetch_file_PITInv ((fs.invalidate (fs.child_path parent name).2).invalidate
      (fs.child_path newparent newname).2) (fs.child_path parent name).2 now getRes h1
    rw [hq] at this
    exact this
  have hp2i : fs2.path_to_inode = fs.path_to_inode := by
    have ha := invalidate_pit fs (fs.child_path parent name).2
    have hb := invalidate_pit (fs.invalidate (fs.child_path parent name).2)
      (fs.child_path newparent newname).2
    have hcp := fetch_file_preserves ((fs.invalidate (fs.child_path parent name).2).invalidate
      (fs.child_path newparent newname).2) (fs.child_path parent name).2 now getRes
    rw [hq] at hcp
    rw [hcp.2.1, hb.2.1, ha.2.1]
  cases res with
  | error e => exact h2
  | ok data =>
    dsimp only
    split
    · exact h2
    · split
      · exact h2
      · cases hp : lookupA fs2.path_to_inode (fs.child_path parent name).2 with
        | none => exact h2
        | some ino =>
          refine rebind_PITInv fs2 _ _ ino h2 hp ?_
            (join_path_ne_nil _ _ hn1) (join_path_ne_nil _ _ hn2)
          rcases hsafe with hs | hs | hs
          · left
            rw [hp2i]
            exact hs
          · right
            exact hs
          · exfalso
            rw [hp2i, hs] at hp
            exact Option.noConfusion hp

/-! ## Claim C3: bidirectional consistency of the path/inode table -/

/-- C3 (counterexample): from a fresh mount, `lookup` of `a` and of `b`
allocate inodes 2 and 3; `rename(1, a, 1, b)` then rebinds inode 2 to path
`b`, replacing the `path_to_inode` binding `b → 3` while leaving the stale
forward entry `3 → b` in `inode_to_path` — so after this legal callback
sequence the table is not bidirectionally consistent, refuting the claim
for a rename whose destination already has an allocated inode. -/
theorem C3_counterexample :
    ¬ BiConsistent (step (step (step (RemoteFS.new cfg1)
      (FSOp.lookup 1 ['a'] 0 (.ok [{ name := ['a'], is_dir := false, size := 3 }])))
      (FSOp.lookup 1 ['b'] 6 (.ok [{ name := ['b'], is_dir := false, size := 3 }])))
      (FSOp.rename 1 ['a'] 1 ['b'] 6 (.ok [1]) true true)) := by
  decide

/-- C3 (amended): bidirectional consistency — together with the bookkeeping
that makes it inductive (unique keys, inodes bounded by the counter) — is
preserved by every dispatcher operation with nonempty names, provided a
rename's destination path has no allocated inode (or coincides with the
source, or the source has none so no rebinding happens). A rename onto an
already-allocated destination breaks it, as the counterexample shows. -/
theorem C3_pit_amended (fs : RemoteFS) (op : FSOp) (h : PITInv fs)
    (hleg : op.legal) (hsafe : renameSafe fs op) : PITInv (step fs op) := by
  cases op with
  | lookup parent name now net => exact lookup_PITInv fs parent name now net h
  | getattr ino now net => exact getattr_PITInv fs ino now net h
  | readdir ino offset now net => exact readdir_PITInv fs ino offset now net h
  | openFile ino flags now net => exact openFile_PITInv fs ino flags now net h
  | read ino fh offset size now seekOk readOk net =>
    exact read_PITInv fs ino fh offset size now seekOk readOk net h
  | create parent name putOk => exact create_PITInv fs parent name putOk h
  | write fh offset data seekOk writeOk =>
    exact write_PITInv fs fh offset data seekOk writeOk h
  | flush fh readOk putOk => exact flush_PITInv fs fh readOk putOk h
  | release fh => exact release_PITInv fs fh h
  | mkdir parent name mkOk => exact mkdir_PITInv fs parent name mkOk h
  | unlink parent name delOk => exact unlink_PITInv fs parent name delOk hleg h
  | rmdir parent name delOk =>
    unfold step RemoteFS.rmdir
    exact unlink_PITInv fs parent name delOk hleg h
  | rename parent name newparent newname now getRes putOk delOk =>
    exact rename_PITInv fs parent name newparent newname now getRes putOk delOk
      hleg.1 hleg.2 hsafe h
  | setattr ino size now putOk net => exact setattr_PITInv fs ino size now putOk net h

/-- Witness for C3 (amended): on a fresh mount the invariant holds, and a
rename of `a` onto the unallocated destination `b` (after a single lookup
of `a`) preserves it. -/
theorem C3_witness :
    PITInv (RemoteFS.new cfg1) ∧
    PITInv (step (step (RemoteFS.new cfg1)
      (FSOp.lookup 1 ['a'] 0 (.ok [{ name := ['a'], is_dir := false, size := 3 }])))
      (FSOp.rename 1 ['a'] 1 ['b'] 0 (.ok [1]) true true)) :=
  ⟨by decide,
    C3_pit_amended (step (RemoteFS.new cfg1)
        (FSOp.lookup 1 ['a'] 0 (.ok [{ name := ['a'], is_dir := false, size := 3 }])))
      (FSOp.rename 1 ['a'] 1 ['b'] 0 (.ok [1]) true true)
      (by decide) (by decide) (by decide)⟩

/-! ## Lemmas for cache invalidation after mutations (claim C6) -/

theorem lookupA_removeA_mono {κ ν : Type} [DecidableEq κ] {m : List (κ × ν)} {k j : κ}
    (h : lookupA m k = none) : lookupA (removeA m j) k = none := by
  by_cases hk : k = j
  · rw [hk]
    exact lookupA_remove_self m j
  · rw [lookupA_remove_ne m j k hk]
    exact h

theorem invalidate_clean (fs : RemoteFS) (q : RPath) :
    lookupA (fs.invalidate q).dir_cache q = none ∧
    lookupA (fs.invalidate q).dir_cache (parent_of q) = none ∧
    lookupA (fs.invalidate q).file_cache q = none := by
  unfold RemoteFS.invalidate
  cases hc : lookupA fs.file_cache q with
  | some e =>
    dsimp only
    exact ⟨lookupA_remove_self _ _,
      lookupA_removeA_mono (lookupA_remove_self _ _),
      lookupA_remove_self _ _⟩
  | none =>
    dsimp only
    exact ⟨lookupA_remove_self _ _,
      lookupA_removeA_mono (lookupA_remove_self _ _),
      hc⟩

theorem invalidate_dir_mono (fs : RemoteFS) (q k : RPath)
    (h : lookupA fs.dir_cache k = none) :
    lookupA (fs.invalidate q).dir_cache k = none := by
  unfold RemoteFS.invalidate
  cases hc : lookupA fs.file_cache q with
  | some e => exact lookupA_removeA_mono (lookupA_removeA_mono h)
  | none => exact lookupA_removeA_mono (lookupA_removeA_mono h)

theorem invalidate_file_mono (fs : RemoteFS) (q k : RPath)
    (h : lookupA fs.file_cache k = none) :
    lookupA (fs.invalidate q).file_cache k = none := by
  unfold RemoteFS.invalidate
  cases hc : lookupA fs.file_cache q with
  | some e => exact lookupA_removeA_mono h
  | none => exact h

theorem alloc_inode_caches (fs : RemoteFS) (p : RPath) :
    (fs.alloc_inode p).2.dir_cache = fs.dir_cache ∧
    (fs.alloc_inode p).2.file_cache = fs.file_cache := by
  dsimp only [RemoteFS.alloc_inode]
  split
  · exact ⟨rfl, rfl⟩
  · exact ⟨rfl, rfl⟩

theorem remove_inode_caches (fs : RemoteFS) (p : RPath) :
    (fs.remove_inode p).dir_cache = fs.dir_cache ∧
    (fs.remove_inode p).file_cache = fs.file_cache := by
  dsimp only [RemoteFS.remove_inode]
  split
  · exact ⟨rfl, rfl⟩
  · exact ⟨rfl, rfl⟩

theorem fetch_file_lookup_none (fs : RemoteFS) (p : RPath) (now : Nat)
    (net : Except Unit (List Nat)) (k : RPath) (hk : k ≠ p)
    (h : lookupA fs.file_cache k = none) :
    lookupA (fs.fetch_file p now net).2.1.file_cache k = none := by
  have hmiss : lookupA (fs.fetch_file_miss p now net).2.1.file_cache k = none := by
    unfold RemoteFS.fetch_file_miss
    cases net with
    | error e => exact h
    | ok data =>
      dsimp only
      rw [lookupA_insert_ne _ _ _ _ hk]
      exact evictGo_lookup_none _ _ _ _ _ _ h
  unfold RemoteFS.fetch_file
  split
  · split
    · exact h
    · exact hmiss
  · exact hmiss

theorem rename_clean (fs : RemoteFS) (parent : Nat) (name : RPath) (newparent : Nat)
    (newname : RPath) (now : Nat) (getRes : Except Unit (List Nat)) (putOk delOk : Bool)
    (hne : (fs.child_path newparent newname).2 ≠ (fs.child_path parent name).2) :
    lookupA (fs.rename parent name newparent newname now getRes putOk delOk).2.1.dir_cache
      (fs.child_path parent name).2 = none ∧
    lookupA (fs.rename parent name newparent newname now getRes putOk delOk).2.1.dir_cache
      (parent_of (fs.child_path parent name).2) = none ∧
    lookupA (fs.rename parent name newparent newname now getRes putOk delOk).2.1.dir_cache
      (fs.child_path newparent newname).2 = none ∧
    lookupA (fs.rename parent name newparent newname now getRes putOk delOk).2.1.dir_cache
      (parent_of (fs.child_path newparent newname).2) = none ∧
    lookupA (fs.rename parent name newparent newname now getRes putOk delOk).2.1.file_cache
      (fs.child_path newparent newname).2 = none := by
  dsimp only [RemoteFS.rename]
  rcases hq : ((fs.invalidate (fs.child_path parent name).2).invalidate
      (fs.child_path newparent newname).2).fetch_file (fs.child_path parent name).2 now getRes
    with ⟨res, fs2, tr⟩
  have hdirpres := fetch_file_preserves ((fs.invalidate (fs.child_path parent name).2).invalidate
    (fs.child_path newparent newname).2) (fs.child_path parent name).2 now getRes
  rw [hq] at hdirpres
  have hdir2 : fs2.dir_cache = ((fs.invalidate (fs.child_path parent name).2).invalidate
      (fs.child_path newparent newname).2).dir_cache := hdirpres.2.2.2.2.2.2
  have hfnew : lookupA fs2.file_cache (fs.child_path newparent newname).2 = none := by
    have h0 : lookupA ((fs.invalidate (fs.child_path parent name).2).invalidate
        (fs.child_path newparent newname).2).file_cache
        (fs.child_path newparent newname).2 = none :=
      (invalidate_clean _ _).2.2
    have := fetch_file_lookup_none ((fs.invalidate (fs.child_path parent name).2).invalidate
      (fs.child_path newparent newname).2) (fs.child_path parent name).2 now getRes
      (fs.child_path newparent newname).2 hne h0
    rw [hq] at this
    exact this
  have hd1 : lookupA fs2.dir_cache (fs.child_path parent name).2 = none := by
    rw [hdir2]
    exact invalidate_dir_mono _ _ _ (invalidate_clean fs (fs.child_path parent name).2).1
  have hd2 : lookupA fs2.dir_cache (parent_of (fs.child_path parent name).2) = none := by
    rw [hdir2]
    exact invalidate_dir_mono _ _ _ (invalidate_clean fs (fs.child_path parent name).2).2.1
  have hd3 : lookupA fs2.dir_cache (fs.child_path newparent newname).2 = none := by
    rw [hdir2]
    exact (invalidate_clean _ (fs.child_path newparent newname).2).1
  have hd4 : lookupA fs2.dir_cache (parent_of (fs.child_path newparent newname).2) = none := by
    rw [hdir2]
    exact (invalidate_clean _ (fs.child_path newparent newname).2).2.1
  cases res with
  | error e => exact ⟨hd1, hd2, hd3, hd4, hfnew⟩
  | ok data =>
    dsimp only
    split
    · exact ⟨hd1, hd2, hd3, hd4, hfnew⟩
    · split
      · exact ⟨hd1, hd2, hd3, hd4, hfnew⟩
      · cases hp : lookupA fs2.path_to_inode (fs.child_path parent name).2 with
        | some ino => exact ⟨hd1, hd2, hd3, hd4, hfnew⟩
        | none => exact ⟨hd1, hd2, hd3, hd4, hfnew⟩

/-! ## Claim C6: mutations leave no cache entry for the affected paths -/

/-- C6 (counterexample): a fully successful `rename(1, a, 1, b)` on a fresh
mount leaves a file-body cache entry for the OLD path `a`: `rename`
invalidates first and then its full-file fetch re-inserts `a`'s body (one
byte, stamp 0, taken at the fetch during the rename). Observed one clock
unit later the entry has nonzero age and is fresh (`1 - 0 < file_ttl`),
refuting the claim for the rename mutation's old path. -/
theorem C6_counterexample :
    ((RemoteFS.new cfg1).rename 1 ['a'] 1 ['b'] 0 (.ok [9]) true true).1 = .ok () ∧
    lookupA ((RemoteFS.new cfg1).rename 1 ['a'] 1 ['b'] 0
      (.ok [9]) true true).2.1.file_cache ['a'] = some { data := [9], cached_at := 0 } ∧
    0 < 1 - 0 ∧ 1 - 0 < cfg1.file_ttl := by
  refine ⟨by decide, by decide, by decide, by decide⟩

/-- C6 (amended): immediately after a successful `create`, `mkdir`,
`unlink`, `rmdir`, dirty-`flush` upload, or truncate via `setattr`, the
caches hold NO entry (hence none fresh of nonzero age) for the affected
path, for its parent's listing, or for its body; after a `rename` the same
holds for the old and new paths' listings and their parents' listings and
for the new path's body — but NOT for the old path's body, which rename's
full-file fetch re-inserts (the counterexample). -/
theorem C6_invalidation_after_mutation (fs : RemoteFS) :
    (∀ parent name, ∀ putOk : Bool, putOk = true →
      lookupA (fs.create parent name putOk).2.1.dir_cache
        (fs.child_path parent name).2 = none ∧
      lookupA (fs.create parent name putOk).2.1.dir_cache
        (parent_of (fs.child_path parent name).2) = none ∧
      lookupA (fs.create parent name putOk).2.1.file_cache
        (fs.child_path parent name).2 = none) ∧
    (∀ parent name, ∀ mkOk : Bool, mkOk = true →
      lookupA (fs.mkdir parent name mkOk).2.1.dir_cache
        (fs.child_path parent name).2 = none ∧
      lookupA (fs.mkdir parent name mkOk).2.1.dir_cache
        (parent_of (fs.child_path parent name).2) = none ∧
      lookupA (fs.mkdir parent name mkOk).2.1.file_cache
        (fs.child_path parent name).2 = none) ∧
    (∀ parent name, ∀ delOk : Bool, delOk = true →
      lookupA (fs.unlink parent name delOk).2.1.dir_cache
        (fs.child_path parent name).2 = none ∧
      lookupA (fs.unlink parent name delOk).2.1.dir_cache
        (parent_of (fs.child_path parent name).2) = none ∧
      lookupA (fs.unlink parent name delOk).2.1.file_cache
        (fs.child_path parent name).2 = none) ∧
    (∀ parent name, ∀ delOk : Bool, delOk = true →
      lookupA (fs.rmdir parent name delOk).2.1.dir_cache
        (fs.child_path parent name).2 = none ∧
      lookupA (fs.rmdir parent name delOk).2.1.dir_cache
        (parent_of (fs.child_path parent name).2) = none ∧
      lookupA (fs.rmdir parent name delOk).2.1.file_cache
        (fs.child_path parent name).2 = none) ∧
    (∀ fh buf, lookupA fs.write_buffers fh = some buf → buf.dirty = true →
      lookupA (fs.flush fh true true).2.1.dir_cache buf.path = none ∧
      lookupA (fs.flush fh true true).2.1.dir_cache (parent_of buf.path) = none ∧
      lookupA (fs.flush fh true true).2.1.file_cache buf.path = none) ∧
    (∀ ino path now net, fs.inode_path ino = some path →
      lookupA (fs.setattr ino (some 0) now true net).2.1.dir_cache path = none ∧
      lookupA (fs.setattr ino (some 0) now true net).2.1.dir_cache
        (parent_of path) = none ∧
      lookupA (fs.setattr ino (some 0) now true net).2.1.file_cache path = none) ∧
    (∀ parent name newparent newname now getRes, ∀ putOk delOk : Bool,
      (fs.child_path newparent newname).2 ≠ (fs.child_path parent name).2 →
      lookupA (fs.rename parent name newparent newname now
        getRes putOk delOk).2.1.dir_cache (fs.child_path parent name).2 = none ∧
      lookupA (fs.rename parent name newparent newname now
        getRes putOk delOk).2.1.dir_cache
        (parent_of (fs.child_path parent name).2) = none ∧
      lookupA (fs.rename parent name newparent newname now
        getRes putOk delOk).2.1.dir_cache (fs.child_path newparent newname).2 = none ∧
      lookupA (fs.rename parent name newparent newname now
        getRes putOk delOk).2.1.dir_cache
        (parent_of (fs.child_path newparent newname).2) = none ∧
      lookupA (fs.rename parent name newparent newname now
        getRes putOk delOk).2.1.file_cache (fs.child_path newparent newname).2 = none) := by
  refine ⟨?_, ?_, ?_, ?_, ?_, ?_, ?_⟩
  · intro parent name putOk hput
    subst hput
    dsimp only [RemoteFS.create]
    have ha := alloc_inode_caches (fs.invalidate (fs.child_path parent name).2)
      (fs.child_path parent name).2
    have hc := invalidate_clean fs (fs.child_path parent name).2
    refine ⟨?_, ?_, ?_⟩
    · show lookupA ((fs.invalidate (fs.child_path parent name).2).alloc_inode
        (fs.child_path parent name).2).2.dir_cache (fs.child_path parent name).2 = none
      rw [ha.1]
      exact hc.1
    · show lookupA ((fs.invalidate (fs.child_path parent name).2).alloc_inode
        (fs.child_path parent name).2).2.dir_cache
        (parent_of (fs.child_path parent name).2) = none
      rw [ha.1]
      exact hc.2.1
    · show lookupA ((fs.invalidate (fs.child_path parent name).2).alloc_inode
        (fs.child_path parent name).2).2.file_cache (fs.child_path parent name).2 = none
      rw [ha.2]
      exact hc.2.2
  · intro parent name mkOk hmk
    subst hmk
    dsimp only [RemoteFS.mkdir]
    have ha := alloc_inode_caches (fs.invalidate (fs.child_path parent name).2)
      (fs.child_path parent name).2
    have hc := invalidate_clean fs (fs.child_path parent name).2
    refine ⟨?_, ?_, ?_⟩
    · show lookupA ((fs.invalidate (fs.child_path parent name).2).alloc_inode
        (fs.child_path parent name).2).2.dir_cache (fs.child_path parent name).2 = none
      rw [ha.1]
      exact hc.1
    · show lookupA ((fs.invalidate (fs.child_path parent name).2).alloc_inode
        (fs.child_path parent name).2).2.dir_cache
        (parent_of (fs.child_path parent name).2) = none
      rw [ha.1]
      exact hc.2.1
    · show lookupA ((fs.invalidate (fs.child_path parent name).2).alloc_inode
        (fs.child_path parent name).2).2.file_cache (fs.child_path parent name).2 = none
      rw [ha.2]
      exact hc.2.2
  · intro parent name delOk hdel
    subst hdel
    dsimp only [RemoteFS.unlink]
    have ha := remove_inode_caches (fs.invalidate (fs.child_path parent name).2)
      (fs.child_path parent name).2
    have hc := invalidate_clean fs (fs.child_path parent name).2
    refine ⟨?_, ?_, ?_⟩
    · show lookupA ((fs.invalidate (fs.child_path parent name).2).remove_inode
        (fs.child_path parent name).2).dir_cache (fs.child_path parent name).2 = none
      rw [ha.1]
      exact hc.1
    · show lookupA ((fs.invalidate (fs.child_path parent name).2).remove_inode
        (fs.child_path parent name).2).dir_cache
        (parent_of (fs.child_path parent name).2) = none
      rw [ha.1]
      exact hc.2.1
    · show lookupA ((fs.invalidate (fs.child_path parent name).2).remove_inode
        (fs.child_path parent name).2).file_cache (fs.child_path parent name).2 = none
      rw [ha.2]
      exact hc.2.2
  · intro parent name delOk hdel
    subst hdel
    dsimp only [RemoteFS.rmdir, RemoteFS.unlink]
    have ha := remove_inode_caches (fs.invalidate (fs.child_path parent name).2)
      (fs.child_path parent name).2
    have hc := invalidate_clean fs (fs.child_path parent name).2
    refine ⟨?_, ?_, ?_⟩
    · show lookupA ((fs.invalidate (fs.child_path parent name).2).remove_inode
        (fs.child_path parent name).2).dir_cache (fs.child_path parent name).2 = none
      rw [ha.1]
      exact hc.1
    · show lookupA ((fs.invalidate (fs.child_path parent name).2).remove_inode
        (fs.child_path parent name).2).dir_cache
        (parent_of (fs.child_path parent name).2) = none
      rw [ha.1]
      exact hc.2.1
    · show lookupA ((fs.invalidate (fs.child_path parent name).2).remove_inode
        (fs.child_path parent name).2).file_cache (fs.child_path parent name).2 = none
      rw [ha.2]
      exact hc.2.2
  · intro fh buf hb hd
    simp only [RemoteFS.flush, hb, hd]
    exact invalidate_clean _ buf.path
  · intro ino path now net hp
    dsimp only [RemoteFS.setattr]
    rw [hp]
    exact invalidate_clean fs path
  · intro parent name newparent newname now getRes putOk delOk hne
    exact rename_clean fs parent name newparent newname now getRes putOk delOk hne

/-- Witness for C6 (amended): concrete instances — after `create(1, c)` on
a fresh mount the caches hold nothing for `c` or its parent listing, and
after `rename(1, a, 1, b)` the caches hold nothing for the new path `b`. -/
theorem C6_witness :
    (lookupA ((RemoteFS.new cfg1).create 1 ['c'] true).2.1.dir_cache ['c'] = none ∧
      lookupA ((RemoteFS.new cfg1).create 1 ['c'] true).2.1.dir_cache
        (parent_of ['c']) = none ∧
      lookupA ((RemoteFS.new cfg1).create 1 ['c'] true).2.1.file_cache ['c'] = none) ∧
    lookupA ((RemoteFS.new cfg1).rename 1 ['a'] 1 ['b'] 0
      (.ok [9]) true true).2.1.file_cache ['b'] = none :=
  ⟨(C6_invalidation_after_mutation (RemoteFS.new cfg1)).1 1 ['c'] true rfl,
    ((C6_invalidation_after_mutation (RemoteFS.new cfg1)).2.2.2.2.2.2
      1 ['a'] 1 ['b'] 0 (.ok [9]) true true (by decide)).2.2.2.2⟩

/-! ## Lemmas for the rename scenario (claim C5) -/

theorem fetch_file_miss_ok (fs : RemoteFS) (p : RPath) (now : Nat) (data : List Nat)
    (hc : lookupA fs.file_cache p = none) :
    (fs.fetch_file p now (Except.ok data)).1 = .ok data ∧
    (fs.fetch_file p now (Except.ok data)).2.2 = [HttpReq.getFull p] := by
  unfold RemoteFS.fetch_file RemoteFS.fetch_file_miss
  simp only [hc]
  exact ⟨trivial, trivial⟩

theorem listDir_entry_src (s : Server) (parent : RPath) (e : RemoteEntry)
    (he : e ∈ s.listDir parent) :
    (∃ pb ∈ s.files, parent_of pb.1 = parent ∧ e.name = baseName pb.1) ∨
    (∃ d ∈ s.dirs, parent_of d = parent ∧ e.name = baseName d) := by
  unfold Server.listDir at he
  rcases List.mem_append.mp he with hf | hd
  · left
    rcases List.mem_map.mp hf with ⟨pb, hpb, hee⟩
    have hflt := List.mem_filter.mp hpb
    refine ⟨pb, hflt.1, by simpa using hflt.2, ?_⟩
    rw [← hee]
  · right
    rcases List.mem_map.mp hd with ⟨d, hdm, hee⟩
    have hflt := List.mem_filter.mp hdm
    refine ⟨d, hflt.1, by simpa using hflt.2, ?_⟩
    rw [← hee]

theorem listDir_no_old_entry (srv : Server) (parentPath name oldP newP : RPath)
    (B : List Nat)
    (holdP : oldP = join_path parentPath name)
    (hne : newP ≠ oldP)
    (hwfn : newP.head? ≠ some '/')
    (hwf : ∀ p ∈ keysA srv.files, p.head? ≠ some '/')
    (hwfd : ∀ d ∈ srv.dirs, d.head? ≠ some '/') :
    ∀ e ∈ ((srv.putFile newP B).deleteAt oldP).listDir parentPath, e.name ≠ name := by
  intro e he hename
  rcases listDir_entry_src _ _ _ he with ⟨pb, hpb, hpar, hnm⟩ | ⟨d, hdm, hpar, hnm⟩
  · have hpb' : pb ∈ removeA (insertA srv.files newP B) oldP := hpb
    obtain ⟨hpb1, hpb2⟩ := mem_of_mem_removeA hpb'
    have hbase : baseName pb.1 = name := by
      rw [← hnm]
      exact hename
    rcases mem_insertA_elim hpb1 with heq | ⟨hmem, hne2⟩
    · have hfst : pb.1 = newP := by rw [heq]
      have : newP = join_path parentPath name := by
        apply eq_join_of_parent_base _ _ _ hwfn
        · rw [← hfst]
          exact hpar
        · rw [← hfst]
          exact hbase
      exact hne (by rw [this, ← holdP])
    · have hhead := hwf pb.1 (List.mem_map_of_mem Prod.fst hmem)
      have : pb.1 = join_path parentPath name :=
        eq_join_of_parent_base _ _ _ hhead hpar hbase
      exact hpb2 (by rw [this, ← holdP])
  · have hdm' : d ∈ (srv.dirs.filter (fun x => decide (x ≠ oldP))) := hdm
    have hdm2 := List.mem_filter.mp hdm'
    have hhead := hwfd d hdm2.1
    have hbase : baseName d = name := by
      rw [← hnm]
      exact hename
    have : d = join_path parentPath name :=
      eq_join_of_parent_base _ _ _ hhead hpar hbase
    have hdo : d ≠ oldP := by simpa using hdm2.2
    exact hdo (by rw [this, ← holdP])

theorem lookup_enoent (fs : RemoteFS) (parent : Nat) (name : RPath) (now : Nat)
    (entries : List RemoteEntry)
    (hdc : lookupA fs.dir_cache (fs.child_path parent name).1 = none)
    (hfind : entries.find? (fun e => decide (e.name = name)) = none) :
    (fs.lookup parent name now (.ok entries)).1 = .error .ENOENT := by
  dsimp only [RemoteFS.lookup, RemoteFS.list_dir]
  rw [hdc]
  simp only [hfind]

/-- C5: `rename(parent, name, newparent, newname)` against a server holding
body `B` at the old path performs, in order, the full `GET` of the old
path, the `PUT` of `B` to the new path and the `DELETE` of the old path;
it replies ok and rebinds the old path's inode `ino` to the new path in
both halves of the path/inode table. Afterwards, reading the new path
(through the server that now holds `B` at the new path) yields the
pre-rename bytes `B`, and a lookup of the old name replies `ENOENT`.
Hypotheses: the parent inodes are bound to their paths, the old path is
bound to `ino`, `fh` has no write buffer, the paths are distinct and
well-formed (no leading `/`; no `/` inside `name`), and `parent ≠ ino`. -/
theorem C5_rename_scenario (fs : RemoteFS) (srv : Server)
    (parent newparent ino fh : Nat)
    (name newname parentPath newParentPath oldP newP : RPath)
    (B : List Nat) (now now2 now3 : Nat)
    (hpp : lookupA fs.inode_to_path parent = some parentPath)
    (hnpp : lookupA fs.inode_to_path newparent = some newParentPath)
    (hop : oldP = join_path parentPath name)
    (hnp2 : newP = join_path newParentPath newname)
    (hne : newP ≠ oldP)
    (hino : lookupA fs.path_to_inode oldP = some ino)
    (hsrv : lookupA srv.files oldP = some B)
    (hparino : parent ≠ ino)
    (hfh : lookupA fs.write_buffers fh = none)
    (hwo : '/' ∉ name)
    (hwfn : newP.head? ≠ some '/')
    (hwf : ∀ p ∈ keysA srv.files, p.head? ≠ some '/')
    (hwfd : ∀ d ∈ srv.dirs, d.head? ≠ some '/') :
    (fs.rename parent name newparent newname now (srv.getFull oldP) true true).1 = .ok () ∧
    (fs.rename parent name newparent newname now (srv.getFull oldP) true true).2.2 =
      [HttpReq.getFull oldP, HttpReq.put newP B, HttpReq.delete oldP] ∧
    lookupA (fs.rename parent name newparent newname now
      (srv.getFull oldP) true true).2.1.path_to_inode newP = some ino ∧
    lookupA (fs.rename parent name newparent newname now
      (srv.getFull oldP) true true).2.1.inode_to_path ino = some newP ∧
    ((fs.rename parent name newparent newname now
        (srv.getFull oldP) true true).2.1.read ino fh 0 B.length now2 true true
      (((srv.putFile newP B).deleteAt oldP).getRange newP 0 B.length)).1 = .ok B ∧
    ((fs.rename parent name newparent newname now
        (srv.getFull oldP) true true).2.1.lookup parent name now3
      (.ok (((srv.putFile newP B).deleteAt oldP).listDir parentPath))).1 =
      .error .ENOENT := by
  have hget : srv.getFull oldP = Except.ok B := by
    unfold Server.getFull
    rw [hsrv]
  have hcp1 : (fs.child_path parent name).2 = oldP := by
    dsimp only [RemoteFS.child_path, RemoteFS.inode_path]
    rw [hpp]
    simp only [Option.getD_some]
    exact hop.symm
  have hcp2 : (fs.child_path newparent newname).2 = newP := by
    dsimp only [RemoteFS.child_path, RemoteFS.inode_path]
    rw [hnpp]
    simp only [Option.getD_some]
    exact hnp2.symm
  have hf2file : lookupA ((fs.invalidate oldP).invalidate newP).file_cache oldP = none :=
    invalidate_file_mono _ _ _ (invalidate_clean fs oldP).2.2
  rcases hq : ((fs.invalidate oldP).invalidate newP).fetch_file oldP now (Except.ok B)
    with ⟨res, fs2, tr⟩
  have hf2 := fetch_file_miss_ok ((fs.invalidate oldP).invalidate newP) oldP now B hf2file
  rw [hq] at hf2
  have hres : res = Except.ok B := hf2.1
  have htr : tr = [HttpReq.getFull oldP] := hf2.2
  have hpres := fetch_file_preserves ((fs.invalidate oldP).invalidate newP) oldP now
    (Except.ok B)
  rw [hq] at hpres
  have hi2p2 : fs2.inode_to_path = fs.inode_to_path := by
    have h1 : fs2.inode_to_path = ((fs.invalidate oldP).invalidate newP).inode_to_path :=
      hpres.1
    rw [h1, (invalidate_pit _ _).1, (invalidate_pit _ _).1]
  have hp2i2 : fs2.path_to_inode = fs.path_to_inode := by
    have h1 : fs2.path_to_inode = ((fs.invalidate oldP).invalidate newP).path_to_inode :=
      hpres.2.1
    rw [h1, (invalidate_pit _ _).2.1, (invalidate_pit _ _).2.1]
  have hwb2 : fs2.write_buffers = fs.write_buffers := by
    have h1 : fs2.write_buffers = ((fs.invalidate oldP).invalidate newP).write_buffers :=
      hpres.2.2.2.1
    rw [h1, invalidate_write_buffers, invalidate_write_buffers]
  have hpar : parent_of oldP = parentPath := by
    rw [hop]
    exact parent_of_join _ _ hwo
  have hdc2 : lookupA fs2.dir_cache parentPath = none := by
    have h7 : fs2.dir_cache = ((fs.invalidate oldP).invalidate newP).dir_cache :=
      hpres.2.2.2.2.2.2
    rw [h7, ← hpar]
    exact invalidate_dir_mono _ _ _ (invalidate_clean fs oldP).2.1
  have hfc2new : lookupA fs2.file_cache newP = none := by
    have h0 : lookupA ((fs.invalidate oldP).invalidate newP).file_cache newP = none :=
      (invalidate_clean _ _).2.2
    have h1 := fetch_file_lookup_none ((fs.invalidate oldP).invalidate newP) oldP now
      (Except.ok B) newP hne h0
    rw [hq] at h1
    exact h1
  have hTF : ¬ (true = false) := by decide
  have hrn : fs.rename parent name newparent newname now (srv.getFull oldP) true true =
      (.ok (),
       { fs2 with
           path_to_inode := insertA (removeA fs2.path_to_inode oldP) newP ino,
           inode_to_path := insertA fs2.inode_to_path ino newP },
       [HttpReq.getFull oldP, HttpReq.put newP B, HttpReq.delete oldP]) := by
    dsimp only [RemoteFS.rename]
    rw [hcp1, hcp2, hget, hq, hres, htr]
    dsimp only
    rw [if_neg hTF, if_neg hTF, hp2i2, hino]
    rfl
  have hip3 : lookupA (insertA fs2.inode_to_path ino newP) parent = some parentPath := by
    rw [lookupA_insert_ne _ _ _ _ hparino, hi2p2, hpp]
  have hsrv1 : lookupA ((srv.putFile newP B).deleteAt oldP).files newP = some B := by
    show lookupA (removeA (insertA srv.files newP B) oldP) newP = some B
    rw [lookupA_remove_ne _ _ _ hne]
    exact lookupA_insert_self _ _ _
  have hnet : ((srv.putFile newP B).deleteAt oldP).getRange newP 0 B.length =
      Except.ok B := by
    unfold Server.getRange
    rw [hsrv1]
    simp
  refine ⟨?_, ?_, ?_, ?_, ?_, ?_⟩
  · rw [hrn]
  · rw [hrn]
  · rw [hrn]
    exact lookupA_insert_self _ _ _
  · rw [hrn]
    exact lookupA_insert_self _ _ _
  · rw [hrn]
    dsimp only [RemoteFS.read, RemoteFS.inode_path]
    rw [hwb2, hfh]
    dsimp only
    rw [lookupA_insert_self]
    dsimp only
    rw [hfc2new]
    dsimp only
    rw [hnet]
  · rw [hrn]
    apply lookup_enoent
    · dsimp only [RemoteFS.child_path, RemoteFS.inode_path]
      rw [hip3]
      exact hdc2
    · rw [List.find?_eq_none]
      intro e he
      simp only [decide_eq_true_eq]
      exact listDir_no_old_entry srv parentPath name oldP newP B hop hne hwfn hwf hwfd e he

/-- Witness for C5: the concrete run — a mount that looked up `a` (inode 2)
against a server holding `a ↦ [9]`; `rename(1, a, 1, b)` issues GET/PUT/
DELETE in order, rebinds inode 2, the new path reads back `[9]`, and
looking `a` up again is `ENOENT`. -/
theorem C5_witness :
    lookupA fsRen.path_to_inode ['a'] = some 2 ∧
    lookupA srvRen.files ['a'] = some [9] ∧
    ((fsRen.rename 1 ['a'] 1 ['b'] 0 (srvRen.getFull ['a']) true true).1 = .ok () ∧
     (fsRen.rename 1 ['a'] 1 ['b'] 0 (srvRen.getFull ['a']) true true).2.2 =
       [HttpReq.getFull ['a'], HttpReq.put ['b'] [9], HttpReq.delete ['a']] ∧
     lookupA (fsRen.rename 1 ['a'] 1 ['b'] 0
       (srvRen.getFull ['a']) true true).2.1.path_to_inode ['b'] = some 2 ∧
     lookupA (fsRen.rename 1 ['a'] 1 ['b'] 0
       (srvRen.getFull ['a']) true true).2.1.inode_to_path 2 = some ['b'] ∧
     ((fsRen.rename 1 ['a'] 1 ['b'] 0
         (srvRen.getFull ['a']) true true).2.1.read 2 99 0 [9].length 0 true true
       (((srvRen.putFile ['b'] [9]).deleteAt ['a']).getRange ['b'] 0 [9].length)).1 =
       .ok [9] ∧
     ((fsRen.rename 1 ['a'] 1 ['b'] 0
         (srvRen.getFull ['a']) true true).2.1.lookup 1 ['a'] 0
       (.ok (((srvRen.putFile ['b'] [9]).deleteAt ['a']).listDir []))).1 =
       .error .ENOENT) :=
  ⟨by decide, by decide,
   C5_rename_scenario fsRen srvRen 1 1 2 99 ['a'] ['b'] [] [] ['a'] ['b'] [9] 0 0 0
     (by decide) (by decide) (by decide) (by decide) (by decide) (by decide) (by decide)
     (by decide) (by decide) (by decide) (by decide) (by decide) (by decide)⟩
